import Mathlib

/-!
Shallow embedding of the dgs-graphstream partition/timeline/cluster/color
core (src/cluster.py, src/color.py, src/graph.py, src/file_io.py,
src/genGraphStream.py, src/utils.py).

Python dictionaries are modelled as insertion-ordered association lists
(`List (key × value)`); node ids are `Int` (Python ints, `-1` is the
exclusion sentinel); cluster ids are `Nat` (the tools produce 1-based ids).
-/

/-! ## utils.py -/

/-- Membership test on a dictionary's keys (`key in d` in Python). -/
def dict_has_key {β : Type} (d : List (Int × β)) (k : Int) : Bool :=
  d.any (fun kv => kv.1 == k)

/-- Python `d[k] = v` on an insertion-ordered dictionary: replace in place
when the key exists, append otherwise. -/
def dict_set {β : Type} (d : List (Int × β)) (k : Int) (v : β) : List (Int × β) :=
  if dict_has_key d k then d.map (fun kv => if kv.1 == k then (k, v) else kv)
  else d ++ [(k, v)]

/-- utils.merge_dictionaries: fold every dictionary's items into one
dictionary, later values overwriting earlier ones. -/
def merge_dictionaries {β : Type} (dicts : List (List (Int × β))) : List (Int × β) :=
  dicts.foldl (fun m d => d.foldl (fun m kv => dict_set m kv.1 kv.2) m) []

/-! ## cluster.py -/

/-- One partition's clustering result: node id to its ordered list of local
cluster ids. -/
abbrev ClusterMap : Type := List (Int × List Nat)

/-- cluster.get_max_cluster_value: `max(itertools.chain(*values))`.
Python's `max` raises on an empty chain; every use site guarantees at least
one id, where this fold over `max` with base 0 agrees with it. -/
def get_max_cluster_value (clusters_per_node : ClusterMap) : Nat :=
  ((clusters_per_node.map Prod.snd).flatten).foldl max 0

/-- cluster.create_cluster_for_homeless_nodes: every node of the graph that
is missing from the cluster map is appended with the single fresh cluster id
`get_max_cluster_value + 1` (the same id for all homeless nodes). -/
def create_cluster_for_homeless_nodes (graph_nodes : List Int)
    (clusters_per_node : ClusterMap) : ClusterMap :=
  let homeless_cluster_id := get_max_cluster_value clusters_per_node + 1
  let homeless_nodes := graph_nodes.filter
    (fun n => !(dict_has_key clusters_per_node n))
  clusters_per_node ++ homeless_nodes.map (fun n => (n, [homeless_cluster_id]))

/-- Loop body of cluster.do_local_to_global_cluster_conversion, carrying the
running `cluster_increment`; returns (offset recorded per partition, shifted
cluster maps). -/
def local_to_global_go : List ClusterMap → Nat → List Nat × List ClusterMap
  | [], _ => ([], [])
  | m :: ms, cluster_increment =>
    let max_cluster := get_max_cluster_value m
    let shifted : ClusterMap :=
      m.map (fun nc => (nc.1, nc.2.map (fun c => c + cluster_increment)))
    let rest := local_to_global_go ms (cluster_increment + max_cluster)
    (cluster_increment :: rest.1, shifted :: rest.2)

/-- cluster.do_local_to_global_cluster_conversion: offsets start at 0; each
partition records the running offset, shifts all of its ids by it, and
advances the offset by its pre-shift maximum id. -/
def do_local_to_global_cluster_conversion (clusters_per_node_per_graph : List ClusterMap) :
    List Nat × List ClusterMap :=
  local_to_global_go clusters_per_node_per_graph 0

/-- All cluster ids appearing in a cluster map. -/
def cluster_ids (m : ClusterMap) : List Nat :=
  (m.map Prod.snd).flatten

/-! ## color.py -/

/-- Python `str.strip('"')`: drop every leading and trailing double-quote. -/
def strip_quotes (s : String) : String :=
  String.mk (((s.toList.dropWhile (fun c => c == '"')).reverse.dropWhile
    (fun c => c == '"')).reverse)

/-- First loop of color.get_colors_per_node_global: map each node's primary
(first-listed) cluster to that node's color, keeping the first color seen
per cluster and skipping nodes with no known color. -/
def build_cluster_to_color (color_per_node : List (Int × String))
    (clusters_per_node : ClusterMap) : List (Nat × String) :=
  clusters_per_node.foldl
    (fun cluster_to_color nc =>
      let first_cluster := nc.2.headD 0
      if cluster_to_color.any (fun kv => kv.1 == first_cluster) then cluster_to_color
      else
        match List.lookup nc.1 color_per_node with
        | some color => cluster_to_color ++ [(first_cluster, color)]
        | none => cluster_to_color)
    []

/-- Second loop of color.get_colors_per_node_global, for one node: look every
cluster of its membership list up in the cluster-to-color map; a missing
cluster raises (KeyError), modelled as `none`. -/
def node_colors (cluster_to_color : List (Nat × String)) :
    List Nat → Option (List String)
  | [] => some []
  | c :: cs =>
    match List.lookup c cluster_to_color with
    | none => none
    | some color => (node_colors cluster_to_color cs).map (fun l => color :: l)

/-- `','.join(c.strip('"') for c in colors)`. -/
def join_colors (colors : List String) : String :=
  String.intercalate "," (colors.map strip_quotes)

/-- color.get_colors_per_node_global: merge the per-partition cluster maps;
with no cluster information return the input color map unchanged; otherwise
build the cluster-to-color map and emit, per node, the comma-joined colors
of its full membership list. A failed lookup propagates as `none`. -/
def get_colors_per_node_global (color_per_node : List (Int × String))
    (clusters_per_node_per_graph : List ClusterMap) : Option (List (Int × String)) :=
  let clusters_per_node := merge_dictionaries clusters_per_node_per_graph
  if clusters_per_node.length = 0 then some color_per_node
  else
    let cluster_to_color := build_cluster_to_color color_per_node clusters_per_node
    clusters_per_node.mapM (fun nc =>
      (node_colors cluster_to_color nc.2).map (fun colors => (nc.1, join_colors colors)))

/-! ## graph.py (partition splitting and cut edges) -/

/-- The input graph: node list and edge list in insertion order. -/
structure Graph where
  nodes : List Int
  edges : List (Int × Int)
deriving DecidableEq, Repr

/-- The node attributes touched by the splitter: `partition`, `hidden`,
`size`, `connect` and `hidden_nodes` (absent ones are `none` / `[]`). -/
structure NodeAttrs where
  partition : Option Int := none
  hidden : Option Nat := none
  size : Option Nat := none
  connect : Option (Int × Int) := none
  hidden_nodes : List Int := []
deriving DecidableEq, Repr

/-- A per-partition sub-graph: its `partition` graph attribute, nodes, edges
and per-node attributes (total over ids; ids outside the sub-graph carry the
empty record). -/
structure SubGraph where
  partition : Int
  nodes : List Int
  edges : List (Int × Int)
  attrs : Int → NodeAttrs

/-- genGraphStream.get_partitions: the distinct assignment values with the
exclusion sentinel `-1` removed. The assignment dictionary's keys are the
graph's nodes, so its values are the assignment over the node list. -/
def get_partitions (g : Graph) (assignments : Int → Int) : List Int :=
  ((g.nodes.map assignments).dedup).filter (fun p => decide (p ≠ -1))

/-- graph.create_sub_graphs: for each partition, the deep copy of the
induced sub-graph on the nodes assigned to it, with `partition` set on the
sub-graph and on every contained node. -/
def create_sub_graphs (g : Graph) (partitions : List Int) (assignments : Int → Int) :
    List SubGraph :=
  partitions.map (fun p =>
    let sub_graph_nodes := g.nodes.filter (fun n => decide (assignments n = p))
    { partition := p
      nodes := sub_graph_nodes
      edges := g.edges.filter
        (fun e => decide (e.1 ∈ sub_graph_nodes ∧ e.2 ∈ sub_graph_nodes))
      attrs := fun n =>
        if n ∈ sub_graph_nodes then { partition := some p } else {} })

/-- graph.is_edge_connected_to_graph. -/
def is_edge_connected_to_graph (edge : Int × Int) (sg : SubGraph) : Prop :=
  edge.1 ∈ sg.nodes ∨ edge.2 ∈ sg.nodes

instance (edge : Int × Int) (sg : SubGraph) :
    Decidable (is_edge_connected_to_graph edge sg) := by
  unfold is_edge_connected_to_graph
  infer_instance

/-- graph.get_internal_external_nodes: (internal, external); the node absent
from the sub-graph is external; with both endpoints present the fallback
`(-1, -1)` is returned. -/
def get_internal_external_nodes (edge : Int × Int) (sg : SubGraph) : Int × Int :=
  if edge.1 ∉ sg.nodes then (edge.2, edge.1)
  else if edge.2 ∉ sg.nodes then (edge.1, edge.2)
  else (-1, -1)

/-- graph.is_edge_in_list: membership in either orientation. -/
def is_edge_in_list (edge : Int × Int) (edge_list : List (Int × Int)) : Prop :=
  edge ∈ edge_list ∨ (edge.2, edge.1) ∈ edge_list

instance (edge : Int × Int) (edge_list : List (Int × Int)) :
    Decidable (is_edge_in_list edge edge_list) := by
  unfold is_edge_in_list
  infer_instance

/-- graph.get_cut_edges: the input edges whose endpoints both lie in some
sub-graph but which appear in no sub-graph's edge list in either
orientation. -/
def get_cut_edges (input_graph : Graph) (sub_graphs : List SubGraph) :
    List (Int × Int) :=
  let sub_graph_edges := (sub_graphs.map SubGraph.edges).flatten
  let sub_graph_nodes := (sub_graphs.map SubGraph.nodes).flatten
  input_graph.edges.filter (fun e =>
    decide (e.1 ∈ sub_graph_nodes ∧ e.2 ∈ sub_graph_nodes
      ∧ ¬ is_edge_in_list e sub_graph_edges))

/-- The cut edges with an endpoint in the given sub-graph (the
`sub_graph_cut_edges` comprehension). -/
def touching_cut_edges (cut_edges : List (Int × Int)) (sg : SubGraph) :
    List (Int × Int) :=
  cut_edges.filter (fun e => decide (is_edge_connected_to_graph e sg))

/-- Body of the cut-edge loop in graph.add_cut_edges_to_subgraphs: create
the placeholder node with id `available_node_id` (hidden, sized, tagged with
the internal endpoint's partition and `connect`), link it to the internal
endpoint, record it in the internal endpoint's `hidden_nodes`, and give it
the internal endpoint's assignment. -/
def add_one_cut_edge (cut_edge_node_size : Nat) (sg : SubGraph)
    (assignments : Int → Int) (available_node_id : Int) (edge : Int × Int) :
    SubGraph × (Int → Int) × Int :=
  let ie := get_internal_external_nodes edge sg
  let internal_node := ie.1
  let external_node := ie.2
  let new_node := available_node_id
  ({ partition := sg.partition
     nodes := sg.nodes ++ [new_node]
     edges := sg.edges ++ [(internal_node, new_node)]
     attrs := fun n =>
       if n = new_node then
         { hidden := some 1
           size := some cut_edge_node_size
           partition := (sg.attrs internal_node).partition
           connect := some (internal_node, external_node) }
       else if n = internal_node then
         { sg.attrs n with
             hidden_nodes := (sg.attrs n).hidden_nodes ++ [new_node] }
       else sg.attrs n },
   fun n => if n = new_node then assignments internal_node else assignments n,
   available_node_id + 1)

/-- The cut-edge loop over one sub-graph's touching cut edges. -/
def process_sub_graph_cut_edges (cut_edge_node_size : Nat) :
    List (Int × Int) → SubGraph → (Int → Int) → Int → SubGraph × (Int → Int) × Int
  | [], sg, assignments, available_node_id => (sg, assignments, available_node_id)
  | e :: es, sg, assignments, available_node_id =>
    let st := add_one_cut_edge cut_edge_node_size sg assignments available_node_id e
    process_sub_graph_cut_edges cut_edge_node_size es st.1 st.2.1 st.2.2

/-- The outer loop of graph.add_cut_edges_to_subgraphs over the sub-graphs,
threading the assignment map and the shared node-id counter. -/
def add_cut_edges_go (cut_edge_node_size : Nat) (cut_edges : List (Int × Int)) :
    List SubGraph → (Int → Int) → Int → List SubGraph × (Int → Int) × Int
  | [], assignments, available_node_id => ([], assignments, available_node_id)
  | sg :: rest, assignments, available_node_id =>
    let r1 := process_sub_graph_cut_edges cut_edge_node_size
      (touching_cut_edges cut_edges sg) sg assignments available_node_id
    let r2 := add_cut_edges_go cut_edge_node_size cut_edges rest r1.2.1 r1.2.2
    (r1.1 :: r2.1, r2.2)

/-- `max(input_graph.nodes())`: Python's `max` raises on an empty node list;
callers guarantee at least one node, where this matches it. -/
def max_node_id (g : Graph) : Int :=
  match g.nodes with
  | [] => 0
  | x :: xs => xs.foldl max x

/-- graph.add_cut_edges_to_subgraphs: compute the cut edges once, then walk
the sub-graphs in partition order adding one placeholder node per touching
cut edge, with ids counting up from `max(original node ids) + 1`. -/
def add_cut_edges_to_subgraphs (input_graph : Graph) (sub_graphs : List SubGraph)
    (assignments : Int → Int) (cut_edge_node_size : Nat) :
    List SubGraph × (Int → Int) × Int :=
  let cut_edges := get_cut_edges input_graph sub_graphs
  add_cut_edges_go cut_edge_node_size cut_edges sub_graphs assignments
    (max_node_id input_graph + 1)

/-- The id of the first placeholder created for the `k`-th sub-graph: the
shared counter's start plus one for every touching cut edge of the earlier
sub-graphs. -/
def placeholder_base (g : Graph) (cut_edges : List (Int × Int))
    (sub_graphs : List SubGraph) (k : Nat) : Int :=
  max_node_id g + 1 +
    ((sub_graphs.take k).map
      (fun sg => ((touching_cut_edges cut_edges sg).length : Int))).sum

/-- The placeholder edges the cut-edge loop appends to one sub-graph: one
edge from the cut edge's internal endpoint (classified against the
sub-graph) to the freshly allocated node id. -/
def placeholder_edges (sg : SubGraph) : List (Int × Int) → Int → List (Int × Int)
  | [], _ => []
  | e :: es, available_node_id =>
    ((get_internal_external_nodes e sg).1, available_node_id)
      :: placeholder_edges sg es (available_node_id + 1)

/-! ## file_io.py (node timeline) -/

/-- A node of the full unioned graph as the timeline builder sees it: its id
and its `order` and `partition` attributes. -/
structure FNode where
  id : Int
  order : Nat
  partition : Int
deriving DecidableEq, Repr

/-- Stable insertion into a list sorted by `order` (the inserted element goes
in front of later elements with an equal key, as Python's stable sort keeps
earlier elements first). -/
def insert_by_order (x : FNode) : List FNode → List FNode
  | [] => [x]
  | y :: l => if x.order ≤ y.order then x :: y :: l else y :: insert_by_order x l

/-- `sorted(nodes, key=order)`: a stable sort by the `order` attribute. -/
def sort_nodes_by_order : List FNode → List FNode
  | [] => []
  | x :: l => insert_by_order x (sort_nodes_by_order l)

/-- file_io.get_frame_start_and_count: sort the full graph's nodes by
`order`, take the 0-based positions whose node lies in the target partition,
extend with the terminal index `len(sorted_nodes) + trailing_frame_count`,
and return (starts, consecutive differences). -/
def get_frame_start_and_count (full_graph : List FNode) (partition : Int)
    (trailing_frame_count : Nat) : List Nat × List Int :=
  let sorted_nodes := sort_nodes_by_order full_graph
  let ordered_assignments := sorted_nodes.map FNode.partition
  let partition_frame_start :=
    ((ordered_assignments.enum).filter (fun ia => ia.2 == partition)).map Prod.fst
  let partition_frame_start_extended :=
    partition_frame_start ++ [sorted_nodes.length + trailing_frame_count]
  let partition_frame_count :=
    (partition_frame_start_extended.zip partition_frame_start_extended.tail).map
      (fun v => (v.2 : Int) - (v.1 : Int))
  (partition_frame_start, partition_frame_count)

/-! ## genGraphStream.py (node-order filtering, degenerate clustering) -/

/-- genGraphStream.filter_node_order with CPython's loop semantics: the
`for` loop walks the list being mutated by index; `remove` deletes the first
occurrence, shifting later elements one place left under the iterator. -/
def filter_node_order_loop (assignments : Int → Int) (i : Nat) (node_order : List Int) :
    List Int :=
  if h : i < node_order.length then
    let node := node_order.get ⟨i, h⟩
    if assignments node = -1 then
      filter_node_order_loop assignments (i + 1) (node_order.erase node)
    else
      filter_node_order_loop assignments (i + 1) node_order
  else node_order
termination_by node_order.length - i
decreasing_by
  · have hm : node_order.get ⟨i, h⟩ ∈ node_order := node_order.get_mem i h
    have := List.length_erase_of_mem hm
    omega
  · omega

/-- genGraphStream.filter_node_order: remove excluded nodes from the order
list, in place, while iterating over it. -/
def filter_node_order (node_order : List Int) (assignments : Int → Int) : List Int :=
  filter_node_order_loop assignments 0 node_order

/-- Outcome of genGraphStream.run_clustering: either a cluster map computed
locally (the zero-edge branch) or an invocation of the external tool named
by the clustering method. -/
inductive ClusteringOutcome where
  | computed (clusters_per_node : ClusterMap)
  | externalTool (method : String)
deriving DecidableEq

/-- genGraphStream.run_clustering: a graph with zero edges never reaches the
external tools; each node is put in its own cluster, ids counting up from 1
in node order. -/
def run_clustering (clustering_method : String) (graph_nodes : List Int)
    (graph_edges : List (Int × Int)) : ClusteringOutcome :=
  if graph_edges.length = 0 then
    .computed ((graph_nodes.enum).map (fun inode => (inode.2, [inode.1 + 1])))
  else
    .externalTool clustering_method

/-- genGraphStream.split_graph composed with genGraphStream.get_partitions:
the sub-graphs the pipeline builds from the input graph and assignment. -/
def split_graph_sub_graphs (g : Graph) (assignments : Int → Int) : List SubGraph :=
  create_sub_graphs g (get_partitions g assignments) assignments

instance : Inhabited SubGraph :=
  ⟨{ partition := 0, nodes := [], edges := [], attrs := fun _ => {} }⟩

/-! ## Concrete instances used by the witnesses (Scenario A of the spec and
small inputs for the other components). -/

/-- Scenario A's input graph: nodes 1..4, edges (1,2), (2,3), (3,4). -/
def exampleGraphA : Graph := ⟨[1, 2, 3, 4], [(1, 2), (2, 3), (3, 4)]⟩

/-- Scenario A's assignment: nodes 1,2 to partition 0, nodes 3,4 to
partition 1, everything else excluded. -/
def exampleAssignA : Int → Int := fun n =>
  if n = 1 ∨ n = 2 then 0 else if n = 3 ∨ n = 4 then 1 else -1

/-- Scenario A's sub-graphs. -/
def exampleSubGraphsA : List SubGraph := split_graph_sub_graphs exampleGraphA exampleAssignA

/-- Scenario A's partition-0 sub-graph. -/
def exampleSubGraphA0 : SubGraph := exampleSubGraphsA.getD 0 default

/-- An assignment excluding the adjacent nodes 1 and 2 and keeping
everything else. -/
def exampleAssignAdjacent : Int → Int := fun n => if n = 1 ∨ n = 2 then -1 else 0

/-! ## Helper lemmas -/

theorem lookup_append {β : Type} (k : Int) (l1 l2 : List (Int × β)) :
    List.lookup k (l1 ++ l2) =
      match List.lookup k l1 with
      | some v => some v
      | none => List.lookup k l2 := by
  induction l1 with
  | nil => simp [List.lookup]
  | cons p l ih =>
    rcases p with ⟨a, b⟩
    by_cases h : k = a
    · simp [List.lookup, h]
    · have hb : (k == a) = false := by simp [h]
      simp only [List.cons_append, List.lookup, hb]
      exact ih

theorem dict_has_key_iff_lookup {β : Type} (d : List (Int × β)) (k : Int) :
    dict_has_key d k = true ↔ (List.lookup k d).isSome := by
  induction d with
  | nil => simp [dict_has_key, List.lookup]
  | cons p l ih =>
    rcases p with ⟨a, b⟩
    by_cases h : k = a
    · simp [dict_has_key, List.lookup, h]
    · have hb : (k == a) = false := by simp [h]
      have hb2 : (a == k) = false := by simp [Ne.symm h]
      simpa [dict_has_key, List.lookup, hb, hb2] using ih

theorem lookup_map_const_singleton (nodes : List Int) (v : List Nat) (k : Int) :
    List.lookup k (nodes.map (fun n => (n, v))) =
      if k ∈ nodes then some v else none := by
  induction nodes with
  | nil => simp [List.lookup]
  | cons n l ih =>
    by_cases h : k = n
    · subst h
      simp [List.lookup]
    · have hb : (k == n) = false := by simp [h]
      simp only [List.map_cons, List.lookup, hb, List.mem_cons]
      rw [ih]
      by_cases hk : k ∈ l <;> simp [hk, h]

theorem lookup_mem {β : Type} : ∀ {d : List (Int × β)} {k : Int} {v : β},
    List.lookup k d = some v → (k, v) ∈ d := by
  intro d
  induction d with
  | nil =>
    intro k v h
    simp [List.lookup] at h
  | cons p l ih =>
    intro k v h
    rcases p with ⟨a, b⟩
    by_cases hk : k = a
    · have hb : (k == a) = true := by simp [hk]
      simp only [List.lookup, hb] at h
      have hv : b = v := by injection h
      subst hv
      subst hk
      exact List.mem_cons_self _ _
    · have hb : (k == a) = false := by simp [hk]
      simp only [List.lookup, hb] at h
      exact List.mem_cons_of_mem _ (ih h)

/-! ## Claim C10: empty merged cluster map -/

/-- Claim C10: when the per-partition cluster maps merge to an empty map,
global color fusion returns the input color-per-node map unchanged (wrapped
in `some`: no failure), producing no per-membership color lists. -/
theorem claim_C10_empty_merge_returns_input (color_per_node : List (Int × String))
    (clusters_per_node_per_graph : List ClusterMap)
    (h : merge_dictionaries clusters_per_node_per_graph = []) :
    get_colors_per_node_global color_per_node clusters_per_node_per_graph =
      some color_per_node := by
  simp [get_colors_per_node_global, h]

/-- Witness for C10 at a concrete input: two empty per-partition maps. -/
theorem claim_C10_witness :
    get_colors_per_node_global [(1, "red")] [[], []] = some [(1, "red")] :=
  claim_C10_empty_merge_returns_input [(1, "red")] [[], []] (by decide)

/-! ## Claim C8: degenerate-graph clustering -/

/-- Claim C8: a zero-edge graph never reaches the external clustering tool;
each node gets its own singleton cluster, ids consecutive from 1 in node
order, and a zero-node zero-edge graph yields the empty map. -/
theorem claim_C8_degenerate_graph_clustering (clustering_method : String)
    (graph_nodes : List Int) (graph_edges : List (Int × Int))
    (h : graph_edges = []) :
    run_clustering clustering_method graph_nodes graph_edges =
      .computed ((graph_nodes.enum).map (fun inode => (inode.2, [inode.1 + 1])))
    ∧ ((graph_nodes.enum).map (fun inode => (inode.2, [inode.1 + 1]))).length
        = graph_nodes.length
    ∧ (∀ i, ((graph_nodes.enum).map (fun inode => (inode.2, [inode.1 + 1]))).get? i
        = (graph_nodes.get? i).map (fun n => (n, [i + 1])))
    ∧ (graph_nodes = [] →
        (graph_nodes.enum).map (fun inode => (inode.2, [inode.1 + 1])) = []) := by
  subst h
  refine ⟨by simp [run_clustering], by simp, fun i => ?_, fun h0 => by simp [h0]⟩
  simp only [List.get?_map, List.get?_enum]
  cases graph_nodes.get? i <;> simp

/-- Witness for C8: the two-node edge-less graph gets singleton clusters 1
and 2. -/
theorem claim_C8_witness :
    run_clustering "oslom2" [7, 9] [] = .computed [(7, [1]), (9, [2])] :=
  (claim_C8_degenerate_graph_clustering "oslom2" [7, 9] [] rfl).1.trans (by decide)

/-! ## Claim C7: node-order filtering (code bug) -/

/-- Claim C7 fails on the code: `filter_node_order` removes elements from
the list it is iterating over, so of two adjacent excluded ids the second
survives. On order `[1,2,3]` with nodes 1 and 2 excluded, node 2 (assignment
`-1`) remains in the result, which therefore is not the permutation
`[3]` of the included ids. -/
theorem claim_C7_filter_skips_adjacent_excluded :
    filter_node_order [1, 2, 3] exampleAssignAdjacent = [2, 3]
    ∧ exampleAssignAdjacent 2 = -1
    ∧ (2 : Int) ∈ filter_node_order [1, 2, 3] exampleAssignAdjacent := by
  have h : filter_node_order [1, 2, 3] exampleAssignAdjacent = [2, 3] := by
    simp [filter_node_order, filter_node_order_loop, exampleAssignAdjacent, List.erase]
  exact ⟨h, by norm_num [exampleAssignAdjacent], by rw [h]; simp⟩

/-! ## Claim C6: homeless-node fixup (corrected) -/

/-- Counterexample to C6 as stated: on nodes `[1,2,3]` with cluster map
`{1: [1]}`, the two homeless nodes 2 and 3 both receive the same cluster
`[2]`, so each homeless node does not end up in its own distinct cluster. -/
theorem claim_C6_counterexample :
    dict_has_key [((1 : Int), [(1 : Nat)])] 2 = false
    ∧ dict_has_key [((1 : Int), [(1 : Nat)])] 3 = false
    ∧ create_cluster_for_homeless_nodes [1, 2, 3] [(1, [1])]
        = [(1, [1]), (2, [2]), (3, [2])]
    ∧ List.lookup 2 (create_cluster_for_homeless_nodes [1, 2, 3] [(1, [1])])
        = List.lookup 3 (create_cluster_for_homeless_nodes [1, 2, 3] [(1, [1])]) := by
  refine ⟨rfl, rfl, ?_, ?_⟩ <;> rfl

/-- Claim C6 amended: after the fixup every node of the graph has at least
one cluster entry; nodes already present keep their lists; every homeless
node is assigned the same new singleton cluster `max(existing ids) + 1`
(not one distinct cluster each). -/
theorem claim_C6_homeless_fixup (graph_nodes : List Int)
    (clusters_per_node : ClusterMap)
    (h1 : clusters_per_node ≠ [])
    (h2 : ∀ nc ∈ clusters_per_node, nc.2 ≠ []) :
    (∀ n, dict_has_key clusters_per_node n = true →
      List.lookup n (create_cluster_for_homeless_nodes graph_nodes clusters_per_node)
        = List.lookup n clusters_per_node)
    ∧ (∀ n ∈ graph_nodes, dict_has_key clusters_per_node n = false →
      List.lookup n (create_cluster_for_homeless_nodes graph_nodes clusters_per_node)
        = some [get_max_cluster_value clusters_per_node + 1])
    ∧ (∀ n ∈ graph_nodes, ∃ l,
      List.lookup n (create_cluster_for_homeless_nodes graph_nodes clusters_per_node)
        = some l ∧ l ≠ []) := by
  have key : ∀ n, List.lookup n
      (create_cluster_for_homeless_nodes graph_nodes clusters_per_node)
      = match List.lookup n clusters_per_node with
        | some v => some v
        | none => if n ∈ graph_nodes.filter
              (fun m => !(dict_has_key clusters_per_node m)) then
            some [get_max_cluster_value clusters_per_node + 1]
          else none := by
    intro n
    unfold create_cluster_for_homeless_nodes
    rw [lookup_append, lookup_map_const_singleton]
    rcases hl : List.lookup n clusters_per_node with _ | v <;>
      simp [List.mem_filter]
  refine ⟨fun n hn => ?_, fun n hn hmiss => ?_, fun n hn => ?_⟩
  · rw [key n]
    rcases Option.isSome_iff_exists.mp ((dict_has_key_iff_lookup _ _).mp hn)
      with ⟨v, hv⟩
    rw [hv]
  · have hnone : List.lookup n clusters_per_node = none := by
      rcases h : List.lookup n clusters_per_node with _ | v
      · rfl
      · have : dict_has_key clusters_per_node n = true := by
          rw [dict_has_key_iff_lookup, h]
          rfl
        rw [this] at hmiss
        cases hmiss
    rw [key n, hnone]
    simp [List.mem_filter, hn, hmiss]
  · rcases hkey : dict_has_key clusters_per_node n with _ | _
    · refine ⟨[get_max_cluster_value clusters_per_node + 1], ?_, by simp⟩
      rw [key n]
      have hnone : List.lookup n clusters_per_node = none := by
        rcases h : List.lookup n clusters_per_node with _ | v
        · rfl
        · have : dict_has_key clusters_per_node n = true := by
            rw [dict_has_key_iff_lookup, h]
            rfl
          rw [this] at hkey
          cases hkey
      rw [hnone]
      simp [List.mem_filter, hn, hkey]
    · rcases Option.isSome_iff_exists.mp ((dict_has_key_iff_lookup _ _).mp hkey)
        with ⟨v, hv⟩
      refine ⟨v, ?_, h2 (n, v) (lookup_mem hv)⟩
      rw [key n, hv]

/-- Witness for C6 at the counterexample input: node 1 keeps its list, and
both homeless nodes receive the shared fresh cluster id 2. -/
theorem claim_C6_witness :
    List.lookup 2 (create_cluster_for_homeless_nodes [1, 2, 3] [(1, [1])])
      = some [get_max_cluster_value [((1 : Int), [(1 : Nat)])] + 1] :=
  (claim_C6_homeless_fixup [1, 2, 3] [(1, [1])] (by decide) (by decide)).2.1
    2 (by decide) (by decide)

/-! ## Claim C3: partition split -/

theorem mem_split_graph_sub_graphs {g : Graph} {assignments : Int → Int}
    {sg : SubGraph} (hsg : sg ∈ split_graph_sub_graphs g assignments) :
    sg.partition ∈ get_partitions g assignments
    ∧ sg.nodes = g.nodes.filter (fun n => decide (assignments n = sg.partition))
    ∧ sg.edges = g.edges.filter (fun e => decide
        (e.1 ∈ g.nodes.filter (fun n => decide (assignments n = sg.partition))
          ∧ e.2 ∈ g.nodes.filter (fun n => decide (assignments n = sg.partition))))
    ∧ ∀ n ∈ sg.nodes, (sg.attrs n).partition = some sg.partition := by
  unfold split_graph_sub_graphs create_sub_graphs at hsg
  rcases List.mem_map.mp hsg with ⟨p, hp, rfl⟩
  refine ⟨hp, rfl, rfl, fun n hn => ?_⟩
  simp only
  rw [if_pos hn]

theorem partitions_ne_excluded {g : Graph} {assignments : Int → Int} {p : Int}
    (hp : p ∈ get_partitions g assignments) : p ≠ -1 := by
  unfold get_partitions at hp
  have := List.mem_filter.mp hp
  simpa using this.2

theorem assignment_mem_partitions {g : Graph} {assignments : Int → Int} {n : Int}
    (hn : n ∈ g.nodes) (hne : assignments n ≠ -1) :
    assignments n ∈ get_partitions g assignments := by
  unfold get_partitions
  refine List.mem_filter.mpr ⟨List.mem_dedup.mpr ?_, by simpa using hne⟩
  exact List.mem_map_of_mem assignments hn

/-- Claim C3: the sub-graphs' node sets are pairwise disjoint; their union
is exactly the included nodes (`assignment ≠ -1`); sub-graph `S_p` contains
exactly the nodes assigned to `p`; and every contained node carries the
attribute `partition = p`. Excluded nodes appear in no sub-graph. -/
theorem claim_C3_partition_split (g : Graph) (assignments : Int → Int) :
    (∀ i j (hi : i < (split_graph_sub_graphs g assignments).length)
        (hj : j < (split_graph_sub_graphs g assignments).length), i ≠ j →
      ∀ n, n ∈ ((split_graph_sub_graphs g assignments).get ⟨i, hi⟩).nodes →
        n ∉ ((split_graph_sub_graphs g assignments).get ⟨j, hj⟩).nodes)
    ∧ (∀ n, (∃ sg ∈ split_graph_sub_graphs g assignments, n ∈ sg.nodes) ↔
        n ∈ g.nodes ∧ assignments n ≠ -1)
    ∧ (∀ sg ∈ split_graph_sub_graphs g assignments, ∀ n,
        n ∈ sg.nodes ↔ n ∈ g.nodes ∧ assignments n = sg.partition)
    ∧ (∀ sg ∈ split_graph_sub_graphs g assignments, ∀ n ∈ sg.nodes,
        (sg.attrs n).partition = some sg.partition) := by
  have hexact : ∀ sg ∈ split_graph_sub_graphs g assignments, ∀ n,
      n ∈ sg.nodes ↔ n ∈ g.nodes ∧ assignments n = sg.partition := by
    intro sg hsg n
    rw [(mem_split_graph_sub_graphs hsg).2.1]
    simp [List.mem_filter]
  refine ⟨?_, ?_, hexact, ?_⟩
  · intro i j hi hj hij n hni hnj
    have hlen : (split_graph_sub_graphs g assignments).length
        = (get_partitions g assignments).length := by
      unfold split_graph_sub_graphs create_sub_graphs
      exact List.length_map _ _
    have hinodes := hexact _ (List.get_mem _ i hi) n
    have hjnodes := hexact _ (List.get_mem _ j hj) n
    have hpi := (hinodes.mp hni).2
    have hpj := (hjnodes.mp hnj).2
    have hget : ∀ k (hk : k < (split_graph_sub_graphs g assignments).length),
        ((split_graph_sub_graphs g assignments).get ⟨k, hk⟩).partition
          = (get_partitions g assignments).get ⟨k, hlen ▸ hk⟩ := by
      intro k hk
      unfold split_graph_sub_graphs create_sub_graphs
      rw [List.get_map]
    rw [hget i hi] at hpi
    rw [hget j hj] at hpj
    have hnodup : (get_partitions g assignments).Nodup := by
      unfold get_partitions
      exact List.Nodup.filter _ (List.nodup_dedup _)
    have hne : (get_partitions g assignments).get ⟨i, hlen ▸ hi⟩
        ≠ (get_partitions g assignments).get ⟨j, hlen ▸ hj⟩ := by
      intro heq
      have := (List.nodup_iff_injective_get.mp hnodup) heq
      have : i = j := congrArg Fin.val this
      exact hij this
    exact hne (hpi ▸ hpj ▸ rfl)
  · intro n
    constructor
    · rintro ⟨sg, hsg, hn⟩
      have h := (hexact sg hsg n).mp hn
      exact ⟨h.1, h.2 ▸ partitions_ne_excluded (mem_split_graph_sub_graphs hsg).1⟩
    · rintro ⟨hn, hne⟩
      have hp := assignment_mem_partitions hn hne
      unfold split_graph_sub_graphs create_sub_graphs
      refine ⟨_, List.mem_map_of_mem _ hp, ?_⟩
      simp only [List.mem_filter]
      exact ⟨hn, by simp⟩
  · intro sg hsg
    exact (mem_split_graph_sub_graphs hsg).2.2.2

/-! ## Claim C1: cluster namespacing -/

theorem le_foldl_max (l : List Nat) : ∀ (a : Nat), a ≤ l.foldl max a := by
  induction l with
  | nil => intro a; simp
  | cons x l ih =>
    intro a
    calc a ≤ max a x := Nat.le_max_left _ _
    _ ≤ (x :: l).foldl max a := by simpa using ih (max a x)

theorem mem_le_foldl_max (l : List Nat) : ∀ (a x : Nat), x ∈ l → x ≤ l.foldl max a := by
  induction l with
  | nil => intro a x hx; simp at hx
  | cons y l ih =>
    intro a x hx
    rcases List.mem_cons.mp hx with h | h
    · subst h
      calc x ≤ max a x := Nat.le_max_right _ _
      _ ≤ l.foldl max (max a x) := le_foldl_max _ _
      _ = (x :: l).foldl max a := rfl
    · simpa using ih (max a y) x h

theorem mem_cluster_ids {c : Nat} {m : ClusterMap} :
    c ∈ cluster_ids m ↔ ∃ nc ∈ m, c ∈ nc.2 := by
  simp only [cluster_ids, List.mem_flatten, List.mem_map]
  constructor
  · rintro ⟨l, ⟨nc, hnc, rfl⟩, hc⟩
    exact ⟨nc, hnc, hc⟩
  · rintro ⟨nc, hnc, hc⟩
    exact ⟨nc.2, ⟨nc, hnc, rfl⟩, hc⟩

theorem cluster_ids_le_max {c : Nat} {m : ClusterMap} (h : c ∈ cluster_ids m) :
    c ≤ get_max_cluster_value m :=
  mem_le_foldl_max _ 0 c h

theorem one_le_get_max_cluster_value {m : ClusterMap} (h1 : m ≠ [])
    (h2 : ∀ nc ∈ m, nc.2 ≠ []) (h3 : ∀ nc ∈ m, ∀ c ∈ nc.2, 1 ≤ c) :
    1 ≤ get_max_cluster_value m := by
  rcases m with _ | ⟨nc, m'⟩
  · exact absurd rfl h1
  rcases nc with ⟨n, cs⟩
  rcases cs with _ | ⟨c, cs'⟩
  · exact absurd rfl (h2 (n, []) (List.mem_cons_self _ _))
  have hc : c ∈ cluster_ids ((n, c :: cs') :: m') :=
    mem_cluster_ids.mpr ⟨(n, c :: cs'), List.mem_cons_self _ _, List.mem_cons_self _ _⟩
  exact le_trans (h3 (n, c :: cs') (List.mem_cons_self _ _) c (List.mem_cons_self _ _))
    (cluster_ids_le_max hc)

theorem cluster_ids_shift (m : ClusterMap) (off : Nat) :
    cluster_ids (m.map (fun nc => (nc.1, nc.2.map (fun c => c + off))))
      = (cluster_ids m).map (fun c => c + off) := by
  simp only [cluster_ids, List.map_map, List.map_flatten]
  rfl

theorem local_to_global_go_lengths (ms : List ClusterMap) : ∀ (inc : Nat),
    (local_to_global_go ms inc).1.length = ms.length
    ∧ (local_to_global_go ms inc).2.length = ms.length := by
  induction ms with
  | nil => intro inc; simp [local_to_global_go]
  | cons m ms ih =>
    intro inc
    simp [local_to_global_go, (ih _).1, (ih _).2]

theorem local_to_global_go_get? (ms : List ClusterMap) : ∀ (inc k : Nat)
    (m : ClusterMap), ms.get? k = some m →
    ∃ off, (local_to_global_go ms inc).1.get? k = some off
      ∧ (local_to_global_go ms inc).2.get? k
          = some (m.map (fun nc => (nc.1, nc.2.map (fun c => c + off)))) := by
  induction ms with
  | nil => intro inc k m h; simp at h
  | cons m0 ms ih =>
    intro inc k m h
    cases k with
    | zero =>
      have hm : m = m0 := by simpa using h.symm
      subst hm
      exact ⟨inc, by simp [local_to_global_go], by simp [local_to_global_go]⟩
    | succ k =>
      have h' : ms.get? k = some m := by simpa using h
      rcases ih (inc + get_max_cluster_value m0) k m h' with ⟨off, h1, h2⟩
      exact ⟨off, by simpa [local_to_global_go] using h1,
        by simpa [local_to_global_go] using h2⟩

theorem local_to_global_go_head (ms : List ClusterMap) (inc : Nat) (h : ms ≠ []) :
    (local_to_global_go ms inc).1.get? 0 = some inc := by
  rcases ms with _ | ⟨m, ms⟩
  · exact absurd rfl h
  · simp [local_to_global_go]

theorem local_to_global_go_succ (ms : List ClusterMap) : ∀ (inc k : Nat)
    (m m' : ClusterMap) (off : Nat), ms.get? k = some m →
    ms.get? (k + 1) = some m' → (local_to_global_go ms inc).1.get? k = some off →
    (local_to_global_go ms inc).1.get? (k + 1)
      = some (off + get_max_cluster_value m) := by
  induction ms with
  | nil => intro inc k m m' off h _ _; simp at h
  | cons m0 ms ih =>
    intro inc k m m' off h h' hoff
    cases k with
    | zero =>
      have hm : m = m0 := by simpa using h.symm
      subst hm
      have hoff' : off = inc := by simpa [local_to_global_go] using hoff.symm
      subst hoff'
      have hne : ms ≠ [] := by
        intro he
        rw [he] at h'
        simp at h'
      simpa [local_to_global_go] using local_to_global_go_head ms _ hne
    | succ k =>
      have h1 : ms.get? k = some m := by simpa using h
      have h2 : ms.get? (k + 1) = some m' := by simpa using h'
      have h3 : (local_to_global_go ms (inc + get_max_cluster_value m0)).1.get? k
          = some off := by simpa [local_to_global_go] using hoff
      simpa [local_to_global_go] using ih _ k m m' off h1 h2 h3

theorem local_to_global_go_chain (ms : List ClusterMap)
    (h1 : ∀ m ∈ ms, m ≠ []) (h2 : ∀ m ∈ ms, ∀ nc ∈ m, nc.2 ≠ [])
    (h3 : ∀ m ∈ ms, ∀ nc ∈ m, ∀ c ∈ nc.2, 1 ≤ c) : ∀ (inc : Nat),
    List.Chain' (· < ·) (local_to_global_go ms inc).1 := by
  induction ms with
  | nil => intro inc; simp [local_to_global_go]
  | cons m0 ms ih =>
    intro inc
    have ihs := ih (fun m hm => h1 m (List.mem_cons_of_mem _ hm))
      (fun m hm => h2 m (List.mem_cons_of_mem _ hm))
      (fun m hm => h3 m (List.mem_cons_of_mem _ hm))
      (inc + get_max_cluster_value m0)
    simp only [local_to_global_go]
    rw [List.chain'_cons']
    refine ⟨?_, ihs⟩
    intro y hy
    rcases ms with _ | ⟨m1, ms'⟩
    · simp [local_to_global_go] at hy
    · have hyv : y = inc + get_max_cluster_value m0 := by
        have hh := local_to_global_go_head (m1 :: ms') (inc + get_max_cluster_value m0)
          (by simp)
        rcases hl : (local_to_global_go (m1 :: ms') (inc + get_max_cluster_value m0)).1
          with _ | ⟨z, zs⟩
        · rw [hl] at hh; simp at hh
        · rw [hl] at hh hy
          simp at hh hy
          omega
      have hm0 : 1 ≤ get_max_cluster_value m0 :=
        one_le_get_max_cluster_value (h1 m0 (List.mem_cons_self _ _))
          (h2 m0 (List.mem_cons_self _ _)) (h3 m0 (List.mem_cons_self _ _))
      omega

theorem local_to_global_go_lower (ms : List ClusterMap) : ∀ (inc k off : Nat),
    (local_to_global_go ms inc).1.get? k = some off → inc ≤ off := by
  induction ms with
  | nil => intro inc k off h; simp [local_to_global_go] at h
  | cons m0 ms ih =>
    intro inc k off h
    cases k with
    | zero =>
      have : off = inc := by simpa [local_to_global_go] using h.symm
      omega
    | succ k =>
      have h' : (local_to_global_go ms (inc + get_max_cluster_value m0)).1.get? k
          = some off := by simpa [local_to_global_go] using h
      have := ih _ k off h'
      omega

theorem local_to_global_offs_lt (ms : List ClusterMap)
    (h1 : ∀ m ∈ ms, m ≠ []) (h2 : ∀ m ∈ ms, ∀ nc ∈ m, nc.2 ≠ [])
    (h3 : ∀ m ∈ ms, ∀ nc ∈ m, ∀ c ∈ nc.2, 1 ≤ c) :
    ∀ i j offi offj, i < j →
    (local_to_global_go ms 0).1.get? i = some offi →
    (local_to_global_go ms 0).1.get? j = some offj → offi < offj := by
  intro i j offi offj hij hi hj
  have hchain := local_to_global_go_chain ms h1 h2 h3 0
  have hpair := List.chain'_iff_pairwise.mp hchain
  rcases List.get?_eq_some.mp hi with ⟨hli, hgi⟩
  rcases List.get?_eq_some.mp hj with ⟨hlj, hgj⟩
  have := List.pairwise_iff_get.mp hpair ⟨i, hli⟩ ⟨j, hlj⟩ (Fin.mk_lt_mk.mpr hij)
  rw [hgi, hgj] at this
  exact this

/-- Claim C1: cluster namespacing records the running offset per partition,
shifts every id by it, advances by the pre-shift maximum; the recorded
offsets start at 0, follow the `offset + local_max` recurrence, and are
strictly increasing (so in particular non-decreasing, strict since every
partition here has at least one cluster); post-offset id sets of distinct
partitions are disjoint; and Scenario B evaluates as the spec says. -/
theorem claim_C1_cluster_namespacing (ms : List ClusterMap)
    (h1 : ∀ m ∈ ms, m ≠ [])
    (h2 : ∀ m ∈ ms, ∀ nc ∈ m, nc.2 ≠ [])
    (h3 : ∀ m ∈ ms, ∀ nc ∈ m, ∀ c ∈ nc.2, 1 ≤ c) :
    ((do_local_to_global_cluster_conversion ms).1.length = ms.length
      ∧ (do_local_to_global_cluster_conversion ms).2.length = ms.length)
    ∧ (∀ k m, ms.get? k = some m → ∃ off,
        (do_local_to_global_cluster_conversion ms).1.get? k = some off
        ∧ (do_local_to_global_cluster_conversion ms).2.get? k
            = some (m.map (fun nc => (nc.1, nc.2.map (fun c => c + off)))))
    ∧ (ms ≠ [] → (do_local_to_global_cluster_conversion ms).1.get? 0 = some 0)
    ∧ (∀ k m m' off, ms.get? k = some m → ms.get? (k + 1) = some m' →
        (do_local_to_global_cluster_conversion ms).1.get? k = some off →
        (do_local_to_global_cluster_conversion ms).1.get? (k + 1)
          = some (off + get_max_cluster_value m))
    ∧ List.Chain' (· < ·) (do_local_to_global_cluster_conversion ms).1
    ∧ (∀ i j, i ≠ j → ∀ mi mj,
        (do_local_to_global_cluster_conversion ms).2.get? i = some mi →
        (do_local_to_global_cluster_conversion ms).2.get? j = some mj →
        ∀ c, c ∈ cluster_ids mi → c ∉ cluster_ids mj)
    ∧ do_local_to_global_cluster_conversion [[(1, [1]), (2, [1, 2])], [(3, [1])]]
        = ([0, 2], [[(1, [1]), (2, [1, 2])], [(3, [3])]]) := by
  have core : ∀ i j mi mj, i < j →
      (local_to_global_go ms 0).2.get? i = some mi →
      (local_to_global_go ms 0).2.get? j = some mj →
      ∀ c, c ∈ cluster_ids mi → c ∈ cluster_ids mj → False := by
    intro i j mi mj hlt hmi hmj c hci hcj
    have hleni : i < ms.length := by
      rcases List.get?_eq_some.mp hmi with ⟨hl, _⟩
      rw [(local_to_global_go_lengths ms 0).2] at hl
      exact hl
    have hlenj : j < ms.length := by
      rcases List.get?_eq_some.mp hmj with ⟨hl, _⟩
      rw [(local_to_global_go_lengths ms 0).2] at hl
      exact hl
    have hmsi : ms.get? i = some (ms.get ⟨i, hleni⟩) := List.get?_eq_get hleni
    have hmsj : ms.get? j = some (ms.get ⟨j, hlenj⟩) := List.get?_eq_get hlenj
    rcases local_to_global_go_get? ms 0 i _ hmsi with ⟨offi, hoffi, houti⟩
    rcases local_to_global_go_get? ms 0 j _ hmsj with ⟨offj, hoffj, houtj⟩
    have hmieq : mi = (ms.get ⟨i, hleni⟩).map
        (fun nc => (nc.1, nc.2.map (fun c => c + offi))) := by
      rw [houti] at hmi
      exact (Option.some.injEq _ _ ▸ hmi).symm
    have hmjeq : mj = (ms.get ⟨j, hlenj⟩).map
        (fun nc => (nc.1, nc.2.map (fun c => c + offj))) := by
      rw [houtj] at hmj
      exact (Option.some.injEq _ _ ▸ hmj).symm
    rw [hmieq, cluster_ids_shift] at hci
    rw [hmjeq, cluster_ids_shift] at hcj
    rcases List.mem_map.mp hci with ⟨c0, hc0, hc0eq⟩
    rcases List.mem_map.mp hcj with ⟨c1, hc1, hc1eq⟩
    have hc0max : c0 ≤ get_max_cluster_value (ms.get ⟨i, hleni⟩) :=
      cluster_ids_le_max hc0
    have hc1one : 1 ≤ c1 := by
      rcases mem_cluster_ids.mp hc1 with ⟨nc, hnc, hcin⟩
      exact h3 _ (ms.get_mem j hlenj) nc hnc c1 hcin
    have hsuccle : j ≤ ms.length - 1 := by omega
    have hmsi1 : ms.get? (i + 1) = some (ms.get ⟨i + 1, by omega⟩) :=
      List.get?_eq_get (by omega)
    have hstep := local_to_global_go_succ ms 0 i _ _ offi hmsi hmsi1 hoffi
    have hle : offi + get_max_cluster_value (ms.get ⟨i, hleni⟩) ≤ offj := by
      rcases Nat.eq_or_lt_of_le (Nat.succ_le_of_lt hlt) with heq | hlt'
      · have hj2 : (local_to_global_go ms 0).1.get? j
            = some (offi + get_max_cluster_value (ms.get ⟨i, hleni⟩)) := by
          rw [← heq]
          exact hstep
        rw [hj2] at hoffj
        injection hoffj with hval
        omega
      · have := local_to_global_offs_lt ms h1 h2 h3 (i + 1) j _ offj hlt' hstep hoffj
        omega
    omega
  refine ⟨⟨(local_to_global_go_lengths ms 0).1, (local_to_global_go_lengths ms 0).2⟩,
    fun k m hk => local_to_global_go_get? ms 0 k m hk,
    fun hne => local_to_global_go_head ms 0 hne,
    fun k m m' off hk hk1 hoff => local_to_global_go_succ ms 0 k m m' off hk hk1 hoff,
    local_to_global_go_chain ms h1 h2 h3 0,
    fun i j hij mi mj hmi hmj c hci hcj => ?_, by decide⟩
  rcases Nat.lt_or_ge i j with hlt | hge
  · exact core i j mi mj hlt hmi hmj c hci hcj
  · have hlt : j < i := by omega
    exact core j i mj mi hlt hmj hmi c hcj hci

/-- Witness for C1 at Scenario B. -/
theorem claim_C1_witness :
    do_local_to_global_cluster_conversion [[(1, [1]), (2, [1, 2])], [(3, [1])]]
      = ([0, 2], [[(1, [1]), (2, [1, 2])], [(3, [3])]]) :=
  (claim_C1_cluster_namespacing [[(1, [1]), (2, [1, 2])], [(3, [1])]]
    (by decide) (by decide) (by decide)).2.2.2.2.2.2

/-! ## Claim C2: node timeline -/

theorem mem_enumFrom_filter_map {α : Type} (q : α → Bool) : ∀ (L : List α) (s i : Nat),
    (i ∈ (((List.enumFrom s L).filter (fun ia => q ia.2)).map Prod.fst) ↔
      ∃ j, ∃ h : j < L.length, i = s + j ∧ q (L.get ⟨j, h⟩) = true) := by
  intro L
  induction L with
  | nil => simp
  | cons x L ih =>
    intro s i
    by_cases hq : q x = true
    · rw [List.enumFrom_cons, List.filter_cons_of_pos (by simpa using hq),
        List.map_cons, List.mem_cons]
      constructor
      · rintro (rfl | hmem)
        · exact ⟨0, by simp, by omega, by simpa using hq⟩
        · rcases (ih (s + 1) i).mp hmem with ⟨j, hj, hij, hqj⟩
          refine ⟨j + 1, ?_, by omega, by simpa using hqj⟩
          simp only [List.length_cons]
          omega
      · rintro ⟨j, hj, rfl, hqj⟩
        cases j with
        | zero => left; omega
        | succ j =>
          right
          have hj' : j < L.length := by
            simp only [List.length_cons] at hj
            omega
          refine (ih (s + 1) _).mpr ⟨j, hj', by omega, ?_⟩
          simpa using hqj
    · have hqf : q x = false := by simpa using hq
      rw [List.enumFrom_cons, List.filter_cons_of_neg (by simp [hqf])]
      rw [ih (s + 1) i]
      constructor
      · rintro ⟨j, hj, rfl, hqj⟩
        refine ⟨j + 1, ?_, by omega, by simpa using hqj⟩
        simp only [List.length_cons]
        omega
      · rintro ⟨j, hj, rfl, hqj⟩
        cases j with
        | zero =>
          simp only [List.get] at hqj
          rw [hqj] at hqf
          cases hqf
        | succ j =>
          have hj' : j < L.length := by
            simp only [List.length_cons] at hj
            omega
          exact ⟨j, hj', by omega, by simpa using hqj⟩

theorem ge_of_mem_enumFrom_filter_map {α : Type} {q : α → Bool} {L : List α}
    {s i : Nat} (h : i ∈ ((List.enumFrom s L).filter (fun ia => q ia.2)).map Prod.fst) :
    s ≤ i := by
  rcases (mem_enumFrom_filter_map q L s i).mp h with ⟨j, _, rfl, _⟩
  omega

theorem pairwise_enumFrom_filter_map {α : Type} (q : α → Bool) : ∀ (L : List α) (s : Nat),
    List.Pairwise (· < ·) (((List.enumFrom s L).filter (fun ia => q ia.2)).map Prod.fst) := by
  intro L
  induction L with
  | nil => simp
  | cons x L ih =>
    intro s
    by_cases hq : q x = true
    · rw [List.enumFrom_cons, List.filter_cons_of_pos (by simpa using hq), List.map_cons]
      refine List.pairwise_cons.mpr ⟨fun y hy => ?_, ih (s + 1)⟩
      have := ge_of_mem_enumFrom_filter_map hy
      omega
    · have hqf : q x = false := by simpa using hq
      rw [List.enumFrom_cons, List.filter_cons_of_neg (by simp [hqf])]
      exact ih (s + 1)

theorem zip_tail_map_sub_get? (l : List Nat) : ∀ i, i + 1 < l.length →
    ((l.zip l.tail).map (fun v => (v.2 : Int) - (v.1 : Int))).get? i
      = some ((l.getD (i + 1) 0 : Nat) - (l.getD i 0 : Nat) : Int) := by
  induction l with
  | nil => intro i hi; simp at hi
  | cons a l ih =>
    intro i hi
    cases l with
    | nil => simp at hi
    | cons b t =>
      cases i with
      | zero => simp
      | succ i =>
        have hi' : i + 1 < (b :: t).length := by
          simp only [List.length_cons] at hi ⊢
          omega
        have := ih i hi'
        simpa using this

theorem zip_tail_map_sub_length (l : List Nat) :
    ((l.zip l.tail).map (fun v => (v.2 : Int) - (v.1 : Int))).length = l.length - 1 := by
  simp [List.length_zip]

/-- Claim C2: the frame starts of partition `p` are precisely the 0-based
positions of `p`'s nodes in the order-sorted node list (a strictly
increasing list), the counts are the consecutive differences of the starts
extended by the terminal index `len(sorted_nodes) + trailing_frame_count`,
and Scenario C evaluates as the spec says. -/
theorem claim_C2_node_timeline (full_graph : List FNode) (partition : Int)
    (trailing_frame_count : Nat) :
    (∀ i, i ∈ (get_frame_start_and_count full_graph partition trailing_frame_count).1 ↔
      ∃ h : i < (sort_nodes_by_order full_graph).length,
        ((sort_nodes_by_order full_graph).get ⟨i, h⟩).partition = partition)
    ∧ List.Pairwise (· < ·)
        (get_frame_start_and_count full_graph partition trailing_frame_count).1
    ∧ (get_frame_start_and_count full_graph partition trailing_frame_count).2.length
        = (get_frame_start_and_count full_graph partition trailing_frame_count).1.length
    ∧ (∀ i, i < (get_frame_start_and_count full_graph partition trailing_frame_count).2.length →
        (get_frame_start_and_count full_graph partition trailing_frame_count).2.get? i
          = some ((((get_frame_start_and_count full_graph partition trailing_frame_count).1
                ++ [(sort_nodes_by_order full_graph).length + trailing_frame_count]).getD (i + 1) 0 : Nat)
              - (((get_frame_start_and_count full_graph partition trailing_frame_count).1
                ++ [(sort_nodes_by_order full_graph).length + trailing_frame_count]).getD i 0 : Nat) : Int))
    ∧ get_frame_start_and_count [⟨1, 1, 0⟩, ⟨2, 2, 0⟩, ⟨3, 3, 1⟩, ⟨4, 4, 1⟩] 0 2
        = ([0, 1], [1, 5])
    ∧ get_frame_start_and_count [⟨1, 1, 0⟩, ⟨2, 2, 0⟩, ⟨3, 3, 1⟩, ⟨4, 4, 1⟩] 1 2
        = ([2, 3], [1, 3]) := by
  have hstart : (get_frame_start_and_count full_graph partition trailing_frame_count).1
      = ((List.enumFrom 0 ((sort_nodes_by_order full_graph).map FNode.partition)).filter
          (fun ia => (fun z => z == partition) ia.2)).map Prod.fst := rfl
  have hcount : (get_frame_start_and_count full_graph partition trailing_frame_count).2
      = ((((get_frame_start_and_count full_graph partition trailing_frame_count).1
            ++ [(sort_nodes_by_order full_graph).length + trailing_frame_count]).zip
          ((get_frame_start_and_count full_graph partition trailing_frame_count).1
            ++ [(sort_nodes_by_order full_graph).length + trailing_frame_count]).tail).map
          (fun v => (v.2 : Int) - (v.1 : Int))) := rfl
  refine ⟨fun i => ?_, ?_, ?_, fun i hi => ?_, by decide, by decide⟩
  · rw [hstart]
    rw [mem_enumFrom_filter_map (fun z => z == partition)
      ((sort_nodes_by_order full_graph).map FNode.partition) 0 i]
    constructor
    · rintro ⟨j, hj, rfl, hqj⟩
      have hj' : j < (sort_nodes_by_order full_graph).length := by
        simpa using hj
      refine ⟨by omega, ?_⟩
      have hg : ((sort_nodes_by_order full_graph).map FNode.partition).get ⟨j, hj⟩
          = FNode.partition ((sort_nodes_by_order full_graph).get ⟨j, hj'⟩) :=
        List.get_map _
      rw [hg] at hqj
      have hz : (0 + j : Nat) = j := by omega
      have : ((sort_nodes_by_order full_graph).get ⟨j, hj'⟩).partition = partition :=
        beq_iff_eq.mp hqj
      simpa [hz] using this
    · rintro ⟨h, hp⟩
      have hi' : i < ((sort_nodes_by_order full_graph).map FNode.partition).length := by
        simpa using h
      refine ⟨i, hi', by omega, ?_⟩
      have hg : ((sort_nodes_by_order full_graph).map FNode.partition).get ⟨i, hi'⟩
          = FNode.partition ((sort_nodes_by_order full_graph).get ⟨i, h⟩) :=
        List.get_map _
      rw [hg]
      exact beq_iff_eq.mpr hp
  · rw [hstart]
    exact pairwise_enumFrom_filter_map (fun z => z == partition) _ 0
  · rw [hcount, zip_tail_map_sub_length]
    simp
  · rw [hcount] at hi ⊢
    rw [zip_tail_map_sub_length] at hi
    apply zip_tail_map_sub_get?
    simp only [List.length_append, List.length_cons, List.length_nil] at hi ⊢
    omega

/-! ## Claim C5: color fusion -/

theorem lookup_append_nat {β : Type} (k : Nat) (l1 l2 : List (Nat × β)) :
    List.lookup k (l1 ++ l2) =
      match List.lookup k l1 with
      | some v => some v
      | none => List.lookup k l2 := by
  induction l1 with
  | nil => simp [List.lookup]
  | cons p l ih =>
    rcases p with ⟨a, b⟩
    by_cases h : k = a
    · simp [List.lookup, h]
    · have hb : (k == a) = false := by simp [h]
      simp only [List.cons_append, List.lookup, hb]
      exact ih

theorem any_key_iff_lookup_nat {β : Type} (d : List (Nat × β)) (k : Nat) :
    (d.any fun kv => kv.1 == k) = true ↔ (List.lookup k d).isSome := by
  induction d with
  | nil => simp [List.lookup]
  | cons p l ih =>
    rcases p with ⟨a, b⟩
    by_cases h : k = a
    · simp [List.lookup, h]
    · have hb : (k == a) = false := by simp [h]
      have hb2 : (a == k) = false := by simp [Ne.symm h]
      simpa [List.lookup, hb, hb2] using ih

theorem lookup_build_go (color_per_node : List (Int × String)) :
    ∀ (merged : ClusterMap) (acc : List (Nat × String)) (c : Nat),
    (List.lookup c (merged.foldl
      (fun cluster_to_color nc =>
        if cluster_to_color.any (fun kv => kv.1 == nc.2.headD 0) then cluster_to_color
        else
          match List.lookup nc.1 color_per_node with
          | some color => cluster_to_color ++ [(nc.2.headD 0, color)]
          | none => cluster_to_color)
      acc)).isSome ↔
      ((List.lookup c acc).isSome ∨ ∃ nc ∈ merged,
        (List.lookup nc.1 color_per_node).isSome ∧ nc.2.headD 0 = c) := by
  intro merged
  induction merged with
  | nil => simp
  | cons nc ms ih =>
    intro acc c
    rw [List.foldl_cons, ih]
    have hstep : (List.lookup c
        (if acc.any (fun kv => kv.1 == nc.2.headD 0) then acc
         else
           match List.lookup nc.1 color_per_node with
           | some color => acc ++ [(nc.2.headD 0, color)]
           | none => acc)).isSome ↔
        ((List.lookup c acc).isSome ∨
          ((List.lookup nc.1 color_per_node).isSome ∧ nc.2.headD 0 = c)) := by
      by_cases hg : acc.any (fun kv => kv.1 == nc.2.headD 0) = true
      · rw [if_pos hg]
        constructor
        · intro h
          exact Or.inl h
        · rintro (h | ⟨_, hc⟩)
          · exact h
          · rw [← hc]
            exact (any_key_iff_lookup_nat acc _).mp hg
      · rw [if_neg hg]
        rcases hcol : List.lookup nc.1 color_per_node with _ | col
        · simp [hcol]
        · rw [lookup_append_nat]
          rcases hacc : List.lookup c acc with _ | v
          · by_cases hc : c = nc.2.headD 0
            · subst hc
              simp [List.lookup, hcol]
            · have hb : (c == nc.2.headD 0) = false := beq_false_of_ne hc
              simp only [List.lookup, hb, Option.isSome_none, Option.isSome_some,
                Bool.false_eq_true, false_iff, false_or, true_and]
              exact fun heq => hc heq.symm
          · simp [hacc, hcol]
    rw [hstep]
    constructor
    · rintro ((h | hnc) | ⟨nc', hnc', h⟩)
      · exact Or.inl h
      · exact Or.inr ⟨nc, List.mem_cons_self _ _, hnc⟩
      · exact Or.inr ⟨nc', List.mem_cons_of_mem _ hnc', h⟩
    · rintro (h | ⟨nc', hnc', h⟩)
      · exact Or.inl (Or.inl h)
      · rcases List.mem_cons.mp hnc' with rfl | hmem
        · exact Or.inl (Or.inr h)
        · exact Or.inr ⟨nc', hmem, h⟩

theorem lookup_build_isSome (color_per_node : List (Int × String))
    (merged : ClusterMap) (c : Nat) :
    (List.lookup c (build_cluster_to_color color_per_node merged)).isSome ↔
      ∃ nc ∈ merged, (List.lookup nc.1 color_per_node).isSome ∧ nc.2.headD 0 = c := by
  have := lookup_build_go color_per_node merged [] c
  simpa [build_cluster_to_color, List.lookup] using this

theorem node_colors_isSome (cluster_to_color : List (Nat × String)) :
    ∀ (cs : List Nat), (node_colors cluster_to_color cs).isSome ↔
      ∀ c ∈ cs, (List.lookup c cluster_to_color).isSome := by
  intro cs
  induction cs with
  | nil => simp [node_colors]
  | cons c cs ih =>
    rcases h : List.lookup c cluster_to_color with _ | col
    · simp only [node_colors, h, Option.isSome_none]
      constructor
      · intro hf
        simp at hf
      · intro hall
        have := hall c (List.mem_cons_self _ _)
        rw [h] at this
        simp at this
    · simp only [node_colors, h, Option.isSome_map', List.mem_cons]
      rw [ih]
      constructor
      · intro hall c' hc'
        rcases hc' with rfl | hmem
        · simp [h]
        · exact hall c' hmem
      · intro hall c' hc'
        exact hall c' (Or.inr hc')

theorem node_colors_length (cluster_to_color : List (Nat × String)) :
    ∀ (cs : List Nat) (colors : List String),
      node_colors cluster_to_color cs = some colors → colors.length = cs.length := by
  intro cs
  induction cs with
  | nil =>
    intro colors h
    simp only [node_colors, Option.some.injEq] at h
    rw [← h]
    rfl
  | cons c cs ih =>
    intro colors h
    rcases hc : List.lookup c cluster_to_color with _ | col
    · rw [node_colors, hc] at h
      cases h
    · rw [node_colors, hc] at h
      rcases Option.map_eq_some'.mp h with ⟨l, hl, rfl⟩
      simp [ih l hl]

theorem mapM_option_isSome {α β : Type} (f : α → Option β) : ∀ (l : List α),
    ((l.mapM f).isSome ↔ ∀ x ∈ l, (f x).isSome) := by
  intro l
  rw [← List.mapM'_eq_mapM]
  induction l with
  | nil => simp [List.mapM']
  | cons x l ih =>
    simp only [List.mapM', Option.bind_eq_bind]
    rcases hx : f x with _ | y
    · simp only [Option.none_bind, Option.isSome_none]
      constructor
      · intro hf
        simp at hf
      · intro hall
        have := hall x (List.mem_cons_self _ _)
        rw [hx] at this
        simp at this
    · simp only [Option.some_bind]
      rcases hl : l.mapM' f with _ | out
      · rw [hl] at ih
        simp only [Option.none_bind, Option.isSome_none]
        constructor
        · intro hf
          simp at hf
        · intro hall
          have : ∀ z ∈ l, (f z).isSome :=
            fun z hz => hall z (List.mem_cons_of_mem _ hz)
          have h2 := ih.mpr this
          simp at h2
      · rw [hl] at ih
        simp only [Option.some_bind, Option.isSome_some, List.mem_cons]
        constructor
        · intro _ z hz
          rcases hz with rfl | hmem
          · simp [hx]
          · exact (ih.mp (by simp)) z hmem
        · intro _
          rfl

theorem mapM_option_mem {α β : Type} (f : α → Option β) : ∀ (l : List α)
    (out : List β), l.mapM f = some out → ∀ x ∈ l, ∃ y, f x = some y ∧ y ∈ out := by
  intro l
  rw [← List.mapM'_eq_mapM]
  induction l with
  | nil =>
    intro out _ x hx
    simp at hx
  | cons a l ih =>
    intro out hout x hx
    simp only [List.mapM', Option.bind_eq_bind] at hout
    rcases ha : f a with _ | y
    · rw [ha] at hout
      simp at hout
    · rw [ha] at hout
      simp only [Option.some_bind] at hout
      rcases hl : l.mapM' f with _ | rest
      · rw [hl] at hout
        simp at hout
      · rw [hl] at hout
        simp only [Option.some_bind, Option.pure_def, Option.some.injEq] at hout
        rcases List.mem_cons.mp hx with rfl | hmem
        · exact ⟨y, ha, by rw [← hout]; exact List.mem_cons_self _ _⟩
        · rcases ih rest hl x hmem with ⟨z, hz, hzmem⟩
          exact ⟨z, hz, by rw [← hout]; exact List.mem_cons_of_mem _ hzmem⟩

/-- Claim C5: with a non-empty merged membership map (all lists non-empty),
color fusion succeeds exactly when every cluster in every node's membership
list is the primary cluster of some colored node (otherwise the lookup
failure propagates immediately as `none`), and on success each node's
emitted color list has exactly one entry per cluster membership, joined in
membership order. -/
theorem claim_C5_color_fusion (color_per_node : List (Int × String))
    (clusters_per_node_per_graph : List ClusterMap)
    (h1 : merge_dictionaries clusters_per_node_per_graph ≠ [])
    (h2 : ∀ nc ∈ merge_dictionaries clusters_per_node_per_graph, nc.2 ≠ []) :
    ((∃ out, get_colors_per_node_global color_per_node clusters_per_node_per_graph
        = some out)
      ↔ ∀ nc ∈ merge_dictionaries clusters_per_node_per_graph, ∀ c ∈ nc.2,
          ∃ nc' ∈ merge_dictionaries clusters_per_node_per_graph,
            (List.lookup nc'.1 color_per_node).isSome ∧ nc'.2.headD 0 = c)
    ∧ (∀ out, get_colors_per_node_global color_per_node clusters_per_node_per_graph
          = some out →
        ∀ nc ∈ merge_dictionaries clusters_per_node_per_graph,
          ∃ colors, node_colors (build_cluster_to_color color_per_node
              (merge_dictionaries clusters_per_node_per_graph)) nc.2 = some colors
            ∧ colors.length = nc.2.length
            ∧ (nc.1, join_colors colors) ∈ out) := by
  have hfn : get_colors_per_node_global color_per_node clusters_per_node_per_graph
      = (merge_dictionaries clusters_per_node_per_graph).mapM (fun nc =>
        (node_colors (build_cluster_to_color color_per_node
          (merge_dictionaries clusters_per_node_per_graph)) nc.2).map
            (fun colors => (nc.1, join_colors colors))) := by
    simp only [get_colors_per_node_global]
    rw [if_neg (by simpa [List.length_eq_zero] using h1)]
  constructor
  · rw [hfn, ← Option.isSome_iff_exists]
    rw [mapM_option_isSome]
    constructor
    · intro hall nc hnc c hc
      have hsome := hall nc hnc
      rw [Option.isSome_map', node_colors_isSome] at hsome
      exact (lookup_build_isSome color_per_node _ c).mp (hsome c hc)
    · intro hall nc hnc
      rw [Option.isSome_map', node_colors_isSome]
      intro c hc
      exact (lookup_build_isSome color_per_node _ c).mpr (hall nc hnc c hc)
  · intro out hout nc hnc
    rw [hfn] at hout
    rcases mapM_option_mem _ _ _ hout nc hnc with ⟨y, hy, hymem⟩
    rcases Option.map_eq_some'.mp hy with ⟨colors, hcolors, rfl⟩
    exact ⟨colors, hcolors, node_colors_length _ _ _ hcolors, hymem⟩

/-- Witness for C5: fusion succeeds on a consistent concrete input where
node 2 belongs to clusters 1 and 2, colored through the primary members 1
and 3. -/
theorem claim_C5_witness :
    ∃ out, get_colors_per_node_global [(1, "\"red\""), (3, "blue")]
        [[(1, [1]), (2, [1, 2])], [(3, [2])]] = some out :=
  (claim_C5_color_fusion [(1, "\"red\""), (3, "blue")]
      [[(1, [1]), (2, [1, 2])], [(3, [2])]] (by decide) (by decide)).1.mpr
    (by decide)

/-! ## Claim C9: internal/external classification of cut edges -/

theorem int_le_foldl_max (l : List Int) : ∀ (a : Int), a ≤ l.foldl max a := by
  induction l with
  | nil => intro a; simp
  | cons x l ih =>
    intro a
    calc a ≤ max a x := le_max_left _ _
    _ ≤ (x :: l).foldl max a := by simpa using ih (max a x)

theorem int_mem_le_foldl_max (l : List Int) : ∀ (a x : Int), x ∈ l → x ≤ l.foldl max a := by
  induction l with
  | nil => intro a x hx; simp at hx
  | cons y l ih =>
    intro a x hx
    rcases List.mem_cons.mp hx with rfl | hmem
    · calc x ≤ max a x := le_max_right _ _
      _ ≤ l.foldl max (max a x) := int_le_foldl_max _ _
      _ = (x :: l).foldl max a := rfl
    · simpa using ih (max a y) x hmem

theorem le_max_node_id {g : Graph} {n : Int} (hn : n ∈ g.nodes) : n ≤ max_node_id g := by
  unfold max_node_id
  rcases hg : g.nodes with _ | ⟨x, xs⟩
  · rw [hg] at hn
    simp at hn
  · rw [hg] at hn
    rcases List.mem_cons.mp hn with rfl | hmem
    · exact int_le_foldl_max xs n
    · exact int_mem_le_foldl_max xs x n hmem

theorem getD_mem_of_lt {α : Type} (l : List α) (d : α) (n : Nat) (h : n < l.length) :
    l.getD n d ∈ l := by
  rw [List.getD_eq_getElem l d h]
  exact List.getElem_mem h

theorem cut_edge_mem {g : Graph} {sub_graphs : List SubGraph} {e : Int × Int}
    (he : e ∈ get_cut_edges g sub_graphs) :
    e ∈ g.edges ∧ e.1 ∈ (sub_graphs.map SubGraph.nodes).flatten
    ∧ e.2 ∈ (sub_graphs.map SubGraph.nodes).flatten
    ∧ ¬ is_edge_in_list e ((sub_graphs.map SubGraph.edges).flatten) := by
  unfold get_cut_edges at he
  have h := List.mem_filter.mp he
  have h2 := decide_eq_true_iff.mp h.2
  exact ⟨h.1, h2.1, h2.2.1, h2.2.2⟩

theorem cut_edge_not_both_mem {g : Graph} {assignments : Int → Int} {sg : SubGraph}
    (hsg : sg ∈ split_graph_sub_graphs g assignments) {e : Int × Int}
    (he : e ∈ get_cut_edges g (split_graph_sub_graphs g assignments)) :
    ¬ (e.1 ∈ sg.nodes ∧ e.2 ∈ sg.nodes) := by
  rintro ⟨h1, h2⟩
  rcases cut_edge_mem he with ⟨heg, _, _, hnotin⟩
  apply hnotin
  have hchar := mem_split_graph_sub_graphs hsg
  have he_sg : e ∈ sg.edges := by
    rw [hchar.2.2.1]
    refine List.mem_filter.mpr ⟨heg, ?_⟩
    rw [decide_eq_true_iff]
    rw [hchar.2.1] at h1 h2
    exact ⟨h1, h2⟩
  exact Or.inl (List.mem_flatten.mpr ⟨sg.edges, List.mem_map_of_mem _ hsg, he_sg⟩)

theorem cut_edge_endpoint_assigned {g : Graph} {assignments : Int → Int} {n : Int}
    (hn : n ∈ ((split_graph_sub_graphs g assignments).map SubGraph.nodes).flatten) :
    n ∈ g.nodes ∧ assignments n ≠ -1 := by
  rcases List.mem_flatten.mp hn with ⟨nodes, hns, hmem⟩
  rcases List.mem_map.mp hns with ⟨sg, hsg, rfl⟩
  have hchar := mem_split_graph_sub_graphs hsg
  rw [hchar.2.1] at hmem
  have h := List.mem_filter.mp hmem
  refine ⟨h.1, ?_⟩
  rw [decide_eq_true_iff.mp h.2]
  exact partitions_ne_excluded hchar.1

/-- Claim C9 (implicit): a cut edge touching a sub-graph has exactly one
endpoint in it, so `get_internal_external_nodes` returns an internal node
that is in the sub-graph and an external node that is not — the `(-1, -1)`
fallback branch is never taken there. -/
theorem claim_C9_internal_external (g : Graph) (assignments : Int → Int)
    (e : Int × Int) (sg : SubGraph)
    (hsg : sg ∈ split_graph_sub_graphs g assignments)
    (he : e ∈ get_cut_edges g (split_graph_sub_graphs g assignments))
    (ht : is_edge_connected_to_graph e sg) :
    ((e.1 ∈ sg.nodes ∧ e.2 ∉ sg.nodes) ∨ (e.1 ∉ sg.nodes ∧ e.2 ∈ sg.nodes))
    ∧ (get_internal_external_nodes e sg).1 ∈ sg.nodes
    ∧ (get_internal_external_nodes e sg).2 ∉ sg.nodes := by
  have hnb := cut_edge_not_both_mem hsg he
  have hone : (e.1 ∈ sg.nodes ∧ e.2 ∉ sg.nodes) ∨ (e.1 ∉ sg.nodes ∧ e.2 ∈ sg.nodes) := by
    rcases ht with h | h
    · exact Or.inl ⟨h, fun h2 => hnb ⟨h, h2⟩⟩
    · exact Or.inr ⟨fun h1 => hnb ⟨h1, h⟩, h⟩
  refine ⟨hone, ?_⟩
  rcases hone with ⟨h1, h2⟩ | ⟨h1, h2⟩
  · have hie : get_internal_external_nodes e sg = (e.1, e.2) := by
      unfold get_internal_external_nodes
      rw [if_neg (by simp [h1]), if_pos h2]
    rw [hie]
    exact ⟨h1, h2⟩
  · have hie : get_internal_external_nodes e sg = (e.2, e.1) := by
      unfold get_internal_external_nodes
      rw [if_pos h1]
    rw [hie]
    exact ⟨h2, h1⟩

/-- Witness for C9 at Scenario A: the cut edge (2,3) touches partition 0's
sub-graph in node 2 only, and the classification returns internal 2,
external 3. -/
theorem claim_C9_witness :
    ((((2 : Int), (3 : Int)).1 ∈ exampleSubGraphA0.nodes
        ∧ ((2 : Int), (3 : Int)).2 ∉ exampleSubGraphA0.nodes)
      ∨ (((2 : Int), (3 : Int)).1 ∉ exampleSubGraphA0.nodes
        ∧ ((2 : Int), (3 : Int)).2 ∈ exampleSubGraphA0.nodes))
    ∧ (get_internal_external_nodes (2, 3) exampleSubGraphA0).1 ∈ exampleSubGraphA0.nodes
    ∧ (get_internal_external_nodes (2, 3) exampleSubGraphA0).2 ∉ exampleSubGraphA0.nodes :=
  claim_C9_internal_external exampleGraphA exampleAssignA (2, 3) exampleSubGraphA0
    (getD_mem_of_lt _ default 0 (by decide))
    (by decide)
    (by decide)

/-! ## Claim C4: cut-edge placeholders -/

theorem giem_cases (e : Int × Int) (sg : SubGraph)
    (hone : e.1 ∉ sg.nodes ∨ e.2 ∉ sg.nodes) :
    get_internal_external_nodes e sg = (e.2, e.1)
    ∨ get_internal_external_nodes e sg = (e.1, e.2) := by
  unfold get_internal_external_nodes
  by_cases h1 : e.1 ∈ sg.nodes
  · have h2 : e.2 ∉ sg.nodes := by
      rcases hone with h | h
      · exact absurd h1 h
      · exact h
    rw [if_neg (not_not_intro h1), if_pos h2]
    exact Or.inr rfl
  · rw [if_pos h1]
    exact Or.inl rfl

theorem giem_fst_lt {e : Int × Int} {sg : SubGraph} {avail : Int}
    (hone : e.1 ∉ sg.nodes ∨ e.2 ∉ sg.nodes)
    (hb : e.1 < avail ∧ e.2 < avail) :
    (get_internal_external_nodes e sg).1 < avail := by
  rcases giem_cases e sg hone with h | h <;> rw [h]
  · exact hb.2
  · exact hb.1

theorem giem_extend {e : Int × Int} {sg sg' : SubGraph} {m : Int}
    (hn : sg'.nodes = sg.nodes ++ [m]) (h1 : e.1 ≠ m) (h2 : e.2 ≠ m) :
    get_internal_external_nodes e sg' = get_internal_external_nodes e sg := by
  unfold get_internal_external_nodes
  rw [hn]
  simp [List.mem_append, h1, h2]

theorem placeholder_edges_congr {sg sg' : SubGraph} : ∀ (es : List (Int × Int))
    (avail : Int),
    (∀ e ∈ es, get_internal_external_nodes e sg' = get_internal_external_nodes e sg) →
    placeholder_edges sg' es avail = placeholder_edges sg es avail := by
  intro es
  induction es with
  | nil => intro avail _; rfl
  | cons e es ih =>
    intro avail hall
    simp only [placeholder_edges]
    rw [hall e (List.mem_cons_self _ _),
      ih (avail + 1) (fun e' he' => hall e' (List.mem_cons_of_mem _ he'))]

theorem placeholder_edges_length (sg : SubGraph) : ∀ (es : List (Int × Int))
    (avail : Int), (placeholder_edges sg es avail).length = es.length := by
  intro es
  induction es with
  | nil => intro avail; rfl
  | cons e es ih => intro avail; simp [placeholder_edges, ih]

theorem placeholder_edges_mem_bounds (sg : SubGraph) {B : Int} : ∀ (es : List (Int × Int))
    (avail : Int) (x : Int × Int), x ∈ placeholder_edges sg es avail →
    (∀ e' ∈ es, e'.1 ∉ sg.nodes ∨ e'.2 ∉ sg.nodes) →
    (∀ e' ∈ es, e'.1 < B ∧ e'.2 < B) → B ≤ avail →
    x.1 < B ∧ avail ≤ x.2 := by
  intro es
  induction es with
  | nil => intro avail x hx _ _ _; simp [placeholder_edges] at hx
  | cons e es ih =>
    intro avail x hx hone hbnd hBa
    simp only [placeholder_edges, List.mem_cons] at hx
    rcases hx with rfl | hmem
    · have hlt : (get_internal_external_nodes e sg).1 < B := by
        rcases giem_cases e sg (hone e (List.mem_cons_self _ _)) with h | h <;> rw [h]
        · exact (hbnd e (List.mem_cons_self _ _)).2
        · exact (hbnd e (List.mem_cons_self _ _)).1
      exact ⟨hlt, le_refl _⟩
    · have := ih (avail + 1) x hmem
        (fun e' he' => hone e' (List.mem_cons_of_mem _ he'))
        (fun e' he' => hbnd e' (List.mem_cons_of_mem _ he'))
        (by omega)
      omega

theorem placeholder_edges_filter (sg : SubGraph) {B : Int} : ∀ (es : List (Int × Int))
    (avail : Int) (j : Nat) (e : Int × Int),
    es.get? j = some e →
    (∀ e' ∈ es, e'.1 ∉ sg.nodes ∨ e'.2 ∉ sg.nodes) →
    (∀ e' ∈ es, e'.1 < B ∧ e'.2 < B) → B ≤ avail →
    (placeholder_edges sg es avail).filter
        (fun ed => decide (ed.1 = avail + (j : Int) ∨ ed.2 = avail + (j : Int)))
      = [((get_internal_external_nodes e sg).1, avail + (j : Int))] := by
  intro es
  induction es with
  | nil => intro avail j e hj _ _ _; simp at hj
  | cons e0 es ih =>
    intro avail j e hj hone hbnd hBa
    simp only [placeholder_edges]
    cases j with
    | zero =>
      have he : e = e0 := by simpa using hj.symm
      subst he
      rw [List.filter_cons_of_pos (by simp)]
      have hrest : (placeholder_edges sg es (avail + 1)).filter
          (fun ed => decide (ed.1 = avail + ((0 : Nat) : Int)
            ∨ ed.2 = avail + ((0 : Nat) : Int))) = [] := by
        rw [List.filter_eq_nil_iff]
        intro x hx
        have hb := placeholder_edges_mem_bounds sg es (avail + 1) x hx
          (fun e' he' => hone e' (List.mem_cons_of_mem _ he'))
          (fun e' he' => hbnd e' (List.mem_cons_of_mem _ he'))
          (by omega)
        simp only [Nat.cast_zero, add_zero, decide_eq_true_iff]
        push_neg
        constructor <;> omega
      rw [hrest]
      simp
    | succ j =>
      have hj' : es.get? j = some e := by simpa using hj
      have hm : avail + ((j + 1 : Nat) : Int) = (avail + 1) + (j : Int) := by
        push_cast
        ring
      have hint : (get_internal_external_nodes e0 sg).1 < B := by
        rcases giem_cases e0 sg (hone e0 (List.mem_cons_self _ _)) with h | h <;> rw [h]
        · exact (hbnd e0 (List.mem_cons_self _ _)).2
        · exact (hbnd e0 (List.mem_cons_self _ _)).1
      rw [List.filter_cons_of_neg (by
        simp only [decide_eq_true_iff]
        push_neg
        have hcast : (0 : Int) ≤ ((j + 1 : Nat) : Int) := by positivity
        constructor <;> omega)]
      rw [hm]
      exact ih (avail + 1) j e hj'
        (fun e' he' => hone e' (List.mem_cons_of_mem _ he'))
        (fun e' he' => hbnd e' (List.mem_cons_of_mem _ he'))
        (by omega)

theorem range_map_int_shift (a : Int) (n : Nat) :
    (List.range (n + 1)).map (fun (j : Nat) => a + (j : Int))
      = a :: (List.range n).map (fun (j : Nat) => (a + 1) + (j : Int)) := by
  rw [List.range_succ_eq_map, List.map_cons, List.map_map]
  simp only [Nat.cast_zero, add_zero]
  congr 1
  apply List.map_congr_left
  intro j _
  simp only [Function.comp]
  push_cast
  ring

theorem process_spec (sz : Nat) : ∀ (es : List (Int × Int)) (sg : SubGraph)
    (a : Int → Int) (avail : Int) (sg' : SubGraph) (a' : Int → Int) (avail' : Int),
    process_sub_graph_cut_edges sz es sg a avail = (sg', a', avail') →
    (∀ e ∈ es, e.1 < avail ∧ e.2 < avail) →
    (∀ e ∈ es, e.1 ∉ sg.nodes ∨ e.2 ∉ sg.nodes) →
    (avail' = avail + es.length
    ∧ sg'.partition = sg.partition
    ∧ sg'.nodes = sg.nodes
        ++ (List.range es.length).map (fun (j : Nat) => avail + (j : Int))
    ∧ sg'.edges = sg.edges ++ placeholder_edges sg es avail
    ∧ (∀ n : Int, n < avail →
        ((sg'.attrs n).partition = (sg.attrs n).partition
        ∧ (sg'.attrs n).hidden = (sg.attrs n).hidden
        ∧ (sg'.attrs n).size = (sg.attrs n).size
        ∧ (sg'.attrs n).connect = (sg.attrs n).connect))
    ∧ (∀ n : Int, n < avail → ∀ x ∈ (sg.attrs n).hidden_nodes,
        x ∈ (sg'.attrs n).hidden_nodes)
    ∧ (∀ n : Int, n < avail → a' n = a n)
    ∧ (∀ (j : Nat) (e : Int × Int), es.get? j = some e →
        ((sg'.attrs (avail + (j : Int))).hidden = some 1
        ∧ (sg'.attrs (avail + (j : Int))).size = some sz
        ∧ (sg'.attrs (avail + (j : Int))).partition
            = (sg.attrs (get_internal_external_nodes e sg).1).partition
        ∧ (sg'.attrs (avail + (j : Int))).connect
            = some (get_internal_external_nodes e sg)
        ∧ (avail + (j : Int))
            ∈ (sg'.attrs (get_internal_external_nodes e sg).1).hidden_nodes
        ∧ a' (avail + (j : Int)) = a (get_internal_external_nodes e sg).1))) := by
  intro es
  induction es with
  | nil =>
    intro sg a avail sg' a' avail' hres _ _
    simp only [process_sub_graph_cut_edges, Prod.mk.injEq] at hres
    obtain ⟨h1, h2, h3⟩ := hres
    subst h1
    subst h2
    subst h3
    refine ⟨by simp, rfl, by simp, by simp [placeholder_edges],
      fun n _ => ⟨rfl, rfl, rfl, rfl⟩, fun n _ x hx => hx, fun n _ => rfl,
      fun j e hj => ?_⟩
    simp at hj
  | cons e es ih =>
    intro sg a avail sg' a' avail' hres hbnd hone
    have hbe : e.1 < avail ∧ e.2 < avail := hbnd e (List.mem_cons_self _ _)
    have hoe : e.1 ∉ sg.nodes ∨ e.2 ∉ sg.nodes := hone e (List.mem_cons_self _ _)
    have hint_lt : (get_internal_external_nodes e sg).1 < avail := giem_fst_lt hoe hbe
    simp only [process_sub_graph_cut_edges] at hres
    have hA1nodes : (add_one_cut_edge sz sg a avail e).1.nodes
        = sg.nodes ++ [avail] := rfl
    have hA1edges : (add_one_cut_edge sz sg a avail e).1.edges
        = sg.edges ++ [((get_internal_external_nodes e sg).1, avail)] := rfl
    have hA1part : (add_one_cut_edge sz sg a avail e).1.partition = sg.partition := rfl
    have hA22 : (add_one_cut_edge sz sg a avail e).2.2 = avail + 1 := rfl
    have hAattrs : ∀ n : Int, (add_one_cut_edge sz sg a avail e).1.attrs n
        = if n = avail then
            { hidden := some 1, size := some sz,
              partition := (sg.attrs (get_internal_external_nodes e sg).1).partition,
              connect := some ((get_internal_external_nodes e sg).1,
                (get_internal_external_nodes e sg).2) }
          else if n = (get_internal_external_nodes e sg).1 then
            { sg.attrs n with hidden_nodes := (sg.attrs n).hidden_nodes ++ [avail] }
          else sg.attrs n := fun n => rfl
    have hAassign : ∀ n : Int, (add_one_cut_edge sz sg a avail e).2.1 n
        = if n = avail then a (get_internal_external_nodes e sg).1 else a n :=
      fun n => rfl
    have hbnd' : ∀ e' ∈ es, e'.1 < (add_one_cut_edge sz sg a avail e).2.2
        ∧ e'.2 < (add_one_cut_edge sz sg a avail e).2.2 := by
      intro e' he'
      rw [hA22]
      have := hbnd e' (List.mem_cons_of_mem _ he')
      omega
    have hone' : ∀ e' ∈ es, e'.1 ∉ (add_one_cut_edge sz sg a avail e).1.nodes
        ∨ e'.2 ∉ (add_one_cut_edge sz sg a avail e).1.nodes := by
      intro e' he'
      rw [hA1nodes]
      have hb' := hbnd e' (List.mem_cons_of_mem _ he')
      rcases hone e' (List.mem_cons_of_mem _ he') with h | h
      · left
        intro hmem
        rcases List.mem_append.mp hmem with hm | hm
        · exact h hm
        · simp at hm
          omega
      · right
        intro hmem
        rcases List.mem_append.mp hmem with hm | hm
        · exact h hm
        · simp at hm
          omega
    have hstab : ∀ e' ∈ es, get_internal_external_nodes e'
        (add_one_cut_edge sz sg a avail e).1 = get_internal_external_nodes e' sg := by
      intro e' he'
      have hb' := hbnd e' (List.mem_cons_of_mem _ he')
      exact giem_extend hA1nodes (by omega) (by omega)
    obtain ⟨ih1, ih2, ih3, ih4, ih5, ih6, ih7, ih8⟩ :=
      ih (add_one_cut_edge sz sg a avail e).1 (add_one_cut_edge sz sg a avail e).2.1
        (add_one_cut_edge sz sg a avail e).2.2 sg' a' avail' hres hbnd' hone'
    have hAfields : ∀ n : Int, n ≠ avail →
        (((add_one_cut_edge sz sg a avail e).1.attrs n).partition
            = (sg.attrs n).partition
        ∧ ((add_one_cut_edge sz sg a avail e).1.attrs n).hidden = (sg.attrs n).hidden
        ∧ ((add_one_cut_edge sz sg a avail e).1.attrs n).size = (sg.attrs n).size
        ∧ ((add_one_cut_edge sz sg a avail e).1.attrs n).connect
            = (sg.attrs n).connect) := by
      intro n hn
      rw [hAattrs n, if_neg hn]
      by_cases hni : n = (get_internal_external_nodes e sg).1
      · rw [if_pos hni]
        exact ⟨rfl, rfl, rfl, rfl⟩
      · rw [if_neg hni]
        exact ⟨rfl, rfl, rfl, rfl⟩
    refine ⟨?_, ?_, ?_, ?_, ?_, ?_, ?_, ?_⟩
    · rw [ih1, hA22]
      simp only [List.length_cons]
      push_cast
      ring
    · rw [ih2, hA1part]
    · rw [hA22] at ih3
      rw [ih3, hA1nodes, List.append_assoc]
      simp only [List.length_cons]
      rw [range_map_int_shift]
      rfl
    · rw [hA22] at ih4
      rw [ih4, placeholder_edges_congr es ((avail : Int) + 1) hstab, hA1edges,
        List.append_assoc]
      simp only [placeholder_edges]
      rfl
    · intro n hn
      have hfin := ih5 n (by rw [hA22]; omega)
      have hloc := hAfields n (by omega)
      exact ⟨hfin.1.trans hloc.1, hfin.2.1.trans hloc.2.1,
        hfin.2.2.1.trans hloc.2.2.1, hfin.2.2.2.trans hloc.2.2.2⟩
    · intro n hn x hx
      refine ih6 n (by rw [hA22]; omega) x ?_
      rw [hAattrs n, if_neg (by omega)]
      by_cases hni : n = (get_internal_external_nodes e sg).1
      · rw [if_pos hni]
        exact List.mem_append_left _ hx
      · rw [if_neg hni]
        exact hx
    · intro n hn
      rw [ih7 n (by rw [hA22]; omega), hAassign n, if_neg (by omega)]
    · intro j e2 hj
      cases j with
      | zero =>
        have he2 : e2 = e := by simpa using hj.symm
        rw [he2]
        have hz : avail + ((0 : Nat) : Int) = avail := by simp
        rw [hz]
        have hfin := ih5 avail (by rw [hA22]; omega)
        have hnew : (add_one_cut_edge sz sg a avail e).1.attrs avail
            = { hidden := some 1, size := some sz,
                partition := (sg.attrs (get_internal_external_nodes e sg).1).partition,
                connect := some ((get_internal_external_nodes e sg).1,
                  (get_internal_external_nodes e sg).2) } := by
          rw [hAattrs avail, if_pos rfl]
        refine ⟨?_, ?_, ?_, ?_, ?_, ?_⟩
        · rw [hfin.2.1, hnew]
        · rw [hfin.2.2.1, hnew]
        · rw [hfin.1, hnew]
        · rw [hfin.2.2.2, hnew]
        · refine ih6 (get_internal_external_nodes e sg).1 (by rw [hA22]; omega)
            avail ?_
          rw [hAattrs (get_internal_external_nodes e sg).1,
            if_neg (by omega), if_pos rfl]
          simp
        · rw [ih7 avail (by rw [hA22]; omega), hAassign avail, if_pos rfl]
      | succ j =>
        have hj' : es.get? j = some e2 := by simpa using hj
        have hb' := hbnd e2 (List.mem_cons_of_mem _ (List.get?_mem hj'))
        have hm : avail + ((j + 1 : Nat) : Int)
            = (add_one_cut_edge sz sg a avail e).2.2 + (j : Int) := by
          rw [hA22]
          push_cast
          ring
        have hstabe := hstab e2 (List.get?_mem hj')
        obtain ⟨k1, k2, k3, k4, k5, k6⟩ := ih8 j e2 hj'
        rw [hstabe] at k3 k4 k5 k6
        have hintlt' : (get_internal_external_nodes e2 sg).1 < avail :=
          giem_fst_lt (hone e2 (List.mem_cons_of_mem _ (List.get?_mem hj'))) hb'
        refine ⟨?_, ?_, ?_, ?_, ?_, ?_⟩
        · rw [hm]
          exact k1
        · rw [hm]
          exact k2
        · rw [hm, k3]
          exact (hAfields (get_internal_external_nodes e2 sg).1 (by omega)).1
        · rw [hm]
          exact k4
        · rw [hm]
          exact k5
        · rw [hm, k6, hAassign (get_internal_external_nodes e2 sg).1,
            if_neg (by omega)]

theorem touching_sub {ce : List (Int × Int)} {sg : SubGraph} {e : Int × Int}
    (he : e ∈ touching_cut_edges ce sg) : e ∈ ce :=
  (List.mem_filter.mp he).1

theorem go_spec (sz : Nat) (ce : List (Int × Int)) : ∀ (sgs : List SubGraph)
    (a : Int → Int) (avail : Int) (res : List SubGraph × (Int → Int) × Int),
    add_cut_edges_go sz ce sgs a avail = res →
    (∀ e ∈ ce, e.1 < avail ∧ e.2 < avail) →
    (∀ sg ∈ sgs, ∀ e ∈ touching_cut_edges ce sg, e.1 ∉ sg.nodes ∨ e.2 ∉ sg.nodes) →
    (res.1.length = sgs.length
    ∧ (∀ n : Int, n < avail → res.2.1 n = a n)
    ∧ (∀ (k : Nat) (sgk : SubGraph), sgs.get? k = some sgk →
        ∃ sgk', res.1.get? k = some sgk'
        ∧ sgk'.partition = sgk.partition
        ∧ sgk'.nodes = sgk.nodes
            ++ (List.range (touching_cut_edges ce sgk).length).map
              (fun (j : Nat) =>
                avail + (((sgs.take k).map
                  (fun s => ((touching_cut_edges ce s).length : Int))).sum) + (j : Int))
        ∧ sgk'.edges = sgk.edges ++ placeholder_edges sgk (touching_cut_edges ce sgk)
            (avail + (((sgs.take k).map
              (fun s => ((touching_cut_edges ce s).length : Int))).sum))
        ∧ (∀ (j : Nat) (e : Int × Int), (touching_cut_edges ce sgk).get? j = some e →
            ((sgk'.attrs (avail + (((sgs.take k).map
                (fun s => ((touching_cut_edges ce s).length : Int))).sum)
                  + (j : Int))).hidden = some 1
            ∧ (sgk'.attrs (avail + (((sgs.take k).map
                (fun s => ((touching_cut_edges ce s).length : Int))).sum)
                  + (j : Int))).size = some sz
            ∧ (sgk'.attrs (avail + (((sgs.take k).map
                (fun s => ((touching_cut_edges ce s).length : Int))).sum)
                  + (j : Int))).partition
                = (sgk.attrs (get_internal_external_nodes e sgk).1).partition
            ∧ (sgk'.attrs (avail + (((sgs.take k).map
                (fun s => ((touching_cut_edges ce s).length : Int))).sum)
                  + (j : Int))).connect = some (get_internal_external_nodes e sgk)
            ∧ (avail + (((sgs.take k).map
                (fun s => ((touching_cut_edges ce s).length : Int))).sum) + (j : Int))
                ∈ (sgk'.attrs (get_internal_external_nodes e sgk).1).hidden_nodes
            ∧ res.2.1 (avail + (((sgs.take k).map
                (fun s => ((touching_cut_edges ce s).length : Int))).sum) + (j : Int))
                = a (get_internal_external_nodes e sgk).1)))) := by
  intro sgs
  induction sgs with
  | nil =>
    intro a avail res hres _ _
    simp only [add_cut_edges_go] at hres
    subst hres
    exact ⟨rfl, fun n _ => rfl, fun k sgk hk => by simp at hk⟩
  | cons sg rest ih =>
    intro a avail res hres hce hone
    simp only [add_cut_edges_go] at hres
    rcases hr1 : process_sub_graph_cut_edges sz (touching_cut_edges ce sg) sg a avail
      with ⟨sg1, a1, avail1⟩
    rw [hr1] at hres
    rcases hr2 : add_cut_edges_go sz ce rest a1 avail1 with ⟨sgs2, a2, avail2⟩
    rw [hr2] at hres
    subst hres
    have htes_bnd : ∀ e ∈ touching_cut_edges ce sg, e.1 < avail ∧ e.2 < avail :=
      fun e he => hce e (touching_sub he)
    have htes_one := hone sg (List.mem_cons_self _ _)
    obtain ⟨ps1, ps2, ps3, ps4, ps5, ps6, ps7, ps8⟩ :=
      process_spec sz (touching_cut_edges ce sg) sg a avail sg1 a1 avail1 hr1
        htes_bnd htes_one
    have hlen_nonneg : (0 : Int) ≤ ((touching_cut_edges ce sg).length : Int) := by
      positivity
    have havail_le : avail ≤ avail1 := by
      rw [ps1]
      omega
    have hce' : ∀ e ∈ ce, e.1 < avail1 ∧ e.2 < avail1 := by
      intro e he
      have := hce e he
      omega
    have hone' : ∀ s ∈ rest, ∀ e ∈ touching_cut_edges ce s,
        e.1 ∉ s.nodes ∨ e.2 ∉ s.nodes :=
      fun s hs => hone s (List.mem_cons_of_mem _ hs)
    obtain ⟨ih1, ih2, ih3⟩ := ih a1 avail1 (sgs2, a2, avail2) hr2 hce' hone'
    refine ⟨by simpa using ih1, ?_, ?_⟩
    · intro n hn
      have h2 := ih2 n (by omega)
      have h1 := ps7 n hn
      simpa using h2.trans h1
    · intro k sgk hk
      cases k with
      | zero =>
        have hsgk : sgk = sg := by simpa using hk.symm
        subst hsgk
        refine ⟨sg1, by simp, ps2, ?_, ?_, ?_⟩
        · simpa using ps3
        · simpa using ps4
        · intro j e hj
          obtain ⟨q1, q2, q3, q4, q5, q6⟩ := ps8 j e hj
          have hj_lt : j < (touching_cut_edges ce sgk).length := by
            rcases List.get?_eq_some.mp hj with ⟨hl, _⟩
            exact hl
          have hm_lt : avail + (j : Int) < avail1 := by
            rw [ps1]
            have : (j : Int) < ((touching_cut_edges ce sgk).length : Int) := by
              exact_mod_cast hj_lt
            omega
          have hpres := ih2 (avail + (j : Int)) hm_lt
          refine ⟨by simpa using q1, by simpa using q2, by simpa using q3,
            by simpa using q4, by simpa using q5, ?_⟩
          have : a2 (avail + (j : Int)) = a1 (avail + (j : Int)) := hpres
          simpa using this.trans q6
      | succ k =>
        have hk' : rest.get? k = some sgk := by simpa using hk
        obtain ⟨sgk', hget, w2, w3, w4, w5⟩ := ih3 k sgk hk'
        have hbase : avail + ((((sg :: rest).take (k + 1)).map
            (fun s => ((touching_cut_edges ce s).length : Int))).sum)
            = avail1 + (((rest.take k).map
              (fun s => ((touching_cut_edges ce s).length : Int))).sum) := by
          simp only [List.take_succ_cons, List.map_cons, List.sum_cons]
          rw [ps1]
          ring
        have hint_a : ∀ (e : Int × Int), e ∈ touching_cut_edges ce sgk →
            a1 (get_internal_external_nodes e sgk).1
              = a (get_internal_external_nodes e sgk).1 := by
          intro e he
          have hb := hce e (touching_sub he)
          have hone_k := hone sgk (List.mem_cons_of_mem _ (List.get?_mem hk')) e he
          exact ps7 _ (giem_fst_lt hone_k hb)
        refine ⟨sgk', by simpa using hget, w2, ?_, ?_, ?_⟩
        · rw [w3]
          congr 1
          apply List.map_congr_left
          intro j _
          rw [hbase]
        · rw [w4, hbase]
        · intro j e hj
          obtain ⟨q1, q2, q3, q4, q5, q6⟩ := w5 j e hj
          rw [hbase]
          exact ⟨q1, q2, q3, q4, q5, q6.trans (hint_a e (List.get?_mem hj))⟩

theorem sub_graph_edge_bounds {g : Graph} {assignments : Int → Int} {sgk : SubGraph}
    (hsg : sgk ∈ split_graph_sub_graphs g assignments) :
    ∀ ed ∈ sgk.edges, ed.1 ≤ max_node_id g ∧ ed.2 ≤ max_node_id g := by
  intro ed hed
  have hchar := mem_split_graph_sub_graphs hsg
  rw [hchar.2.2.1] at hed
  have h := decide_eq_true_iff.mp (List.mem_filter.mp hed).2
  exact ⟨le_max_node_id (List.mem_filter.mp h.1).1,
    le_max_node_id (List.mem_filter.mp h.2).1⟩

theorem pipeline_cut_edge_bounds {g : Graph} {assignments : Int → Int}
    {e : Int × Int} (he : e ∈ get_cut_edges g (split_graph_sub_graphs g assignments)) :
    e.1 < max_node_id g + 1 ∧ e.2 < max_node_id g + 1 := by
  rcases cut_edge_mem he with ⟨_, h1, h2, _⟩
  have hb1 := le_max_node_id (cut_edge_endpoint_assigned h1).1
  have hb2 := le_max_node_id (cut_edge_endpoint_assigned h2).1
  omega

theorem base_sum_nonneg (ce : List (Int × Int)) (sgs : List SubGraph) (k : Nat) :
    (0 : Int) ≤ ((sgs.take k).map
      (fun s => ((touching_cut_edges ce s).length : Int))).sum := by
  apply List.sum_nonneg
  intro x hx
  rcases List.mem_map.mp hx with ⟨s, _, rfl⟩
  positivity

/-- Claim C4: the cut-edge set is exactly the input edges with both
endpoints in some sub-graph that appear in no sub-graph's edge list (in
either orientation), and such an edge never has an excluded endpoint; the
cut-edge loop gives each sub-graph one new placeholder node per touching
cut edge, with consecutive ids drawn from a single counter that starts at
`max(original node ids) + 1` and runs across the sub-graphs in partition
order; each placeholder is hidden, carries the configured size, the
internal endpoint's partition and `connect = (internal, external)`, is
connected by exactly one edge (to the internal endpoint), is appended to
the internal endpoint's `hidden_nodes`, and enters the assignment map with
the internal endpoint's assignment; original assignments are untouched. -/
theorem claim_C4_cut_edge_placeholders (g : Graph) (assignments : Int → Int)
    (cut_edge_node_size : Nat) (hne : g.nodes ≠ []) :
    (∀ e, e ∈ get_cut_edges g (split_graph_sub_graphs g assignments) ↔
      (e ∈ g.edges
      ∧ (∃ sg ∈ split_graph_sub_graphs g assignments, e.1 ∈ sg.nodes)
      ∧ (∃ sg ∈ split_graph_sub_graphs g assignments, e.2 ∈ sg.nodes)
      ∧ ¬ is_edge_in_list e
          (((split_graph_sub_graphs g assignments).map SubGraph.edges).flatten)))
    ∧ (∀ e ∈ get_cut_edges g (split_graph_sub_graphs g assignments),
        assignments e.1 ≠ -1 ∧ assignments e.2 ≠ -1)
    ∧ (add_cut_edges_to_subgraphs g (split_graph_sub_graphs g assignments) assignments
        cut_edge_node_size).1.length = (split_graph_sub_graphs g assignments).length
    ∧ placeholder_base g (get_cut_edges g (split_graph_sub_graphs g assignments))
        (split_graph_sub_graphs g assignments) 0 = max_node_id g + 1
    ∧ (∀ k sgk, (split_graph_sub_graphs g assignments).get? k = some sgk →
        placeholder_base g (get_cut_edges g (split_graph_sub_graphs g assignments))
            (split_graph_sub_graphs g assignments) (k + 1)
          = placeholder_base g (get_cut_edges g (split_graph_sub_graphs g assignments))
              (split_graph_sub_graphs g assignments) k
            + ((touching_cut_edges
                (get_cut_edges g (split_graph_sub_graphs g assignments)) sgk).length : Int))
    ∧ (∀ n : Int, n < max_node_id g + 1 →
        (add_cut_edges_to_subgraphs g (split_graph_sub_graphs g assignments) assignments
          cut_edge_node_size).2.1 n = assignments n)
    ∧ (∀ k sgk, (split_graph_sub_graphs g assignments).get? k = some sgk →
        ∃ sgk', (add_cut_edges_to_subgraphs g (split_graph_sub_graphs g assignments)
            assignments cut_edge_node_size).1.get? k = some sgk'
        ∧ sgk'.partition = sgk.partition
        ∧ sgk'.nodes = sgk.nodes
            ++ (List.range (touching_cut_edges
                (get_cut_edges g (split_graph_sub_graphs g assignments)) sgk).length).map
              (fun (j : Nat) => placeholder_base g
                (get_cut_edges g (split_graph_sub_graphs g assignments))
                (split_graph_sub_graphs g assignments) k + (j : Int))
        ∧ (∀ (j : Nat) (e : Int × Int),
            (touching_cut_edges
              (get_cut_edges g (split_graph_sub_graphs g assignments)) sgk).get? j
                = some e →
            ((sgk'.attrs (placeholder_base g
                (get_cut_edges g (split_graph_sub_graphs g assignments))
                (split_graph_sub_graphs g assignments) k + (j : Int))).hidden = some 1
            ∧ (sgk'.attrs (placeholder_base g
                (get_cut_edges g (split_graph_sub_graphs g assignments))
                (split_graph_sub_graphs g assignments) k + (j : Int))).size
                  = some cut_edge_node_size
            ∧ (sgk'.attrs (placeholder_base g
                (get_cut_edges g (split_graph_sub_graphs g assignments))
                (split_graph_sub_graphs g assignments) k + (j : Int))).partition
                  = (sgk.attrs (get_internal_external_nodes e sgk).1).partition
            ∧ (sgk'.attrs (placeholder_base g
                (get_cut_edges g (split_graph_sub_graphs g assignments))
                (split_graph_sub_graphs g assignments) k + (j : Int))).connect
                  = some (get_internal_external_nodes e sgk)
            ∧ sgk'.edges.filter (fun ed => decide
                (ed.1 = placeholder_base g
                  (get_cut_edges g (split_graph_sub_graphs g assignments))
                  (split_graph_sub_graphs g assignments) k + (j : Int)
                ∨ ed.2 = placeholder_base g
                  (get_cut_edges g (split_graph_sub_graphs g assignments))
                  (split_graph_sub_graphs g assignments) k + (j : Int)))
                = [((get_internal_external_nodes e sgk).1, placeholder_base g
                    (get_cut_edges g (split_graph_sub_graphs g assignments))
                    (split_graph_sub_graphs g assignments) k + (j : Int))]
            ∧ (placeholder_base g
                (get_cut_edges g (split_graph_sub_graphs g assignments))
                (split_graph_sub_graphs g assignments) k + (j : Int))
                  ∈ (sgk'.attrs (get_internal_external_nodes e sgk).1).hidden_nodes
            ∧ (add_cut_edges_to_subgraphs g (split_graph_sub_graphs g assignments)
                assignments cut_edge_node_size).2.1
                (placeholder_base g
                  (get_cut_edges g (split_graph_sub_graphs g assignments))
                  (split_graph_sub_graphs g assignments) k + (j : Int))
                  = assignments (get_internal_external_nodes e sgk).1))) := by
  have hce_bnd : ∀ e ∈ get_cut_edges g (split_graph_sub_graphs g assignments),
      e.1 < max_node_id g + 1 ∧ e.2 < max_node_id g + 1 :=
    fun e he => pipeline_cut_edge_bounds he
  have hone : ∀ sg ∈ split_graph_sub_graphs g assignments,
      ∀ e ∈ touching_cut_edges
        (get_cut_edges g (split_graph_sub_graphs g assignments)) sg,
      e.1 ∉ sg.nodes ∨ e.2 ∉ sg.nodes := by
    intro sg hsg e he
    exact not_and_or.mp (cut_edge_not_both_mem hsg (touching_sub he))
  obtain ⟨go1, go2, go3⟩ := go_spec cut_edge_node_size
    (get_cut_edges g (split_graph_sub_graphs g assignments))
    (split_graph_sub_graphs g assignments) assignments (max_node_id g + 1)
    (add_cut_edges_to_subgraphs g (split_graph_sub_graphs g assignments) assignments
      cut_edge_node_size) rfl hce_bnd hone
  refine ⟨?_, ?_, go1, by simp [placeholder_base], ?_, ?_, ?_⟩
  · intro e
    unfold get_cut_edges
    rw [List.mem_filter]
    rw [decide_eq_true_iff]
    constructor
    · rintro ⟨h1, h2, h3, h4⟩
      refine ⟨h1, ?_, ?_, h4⟩
      · rcases List.mem_flatten.mp h2 with ⟨l, hl, hm⟩
        rcases List.mem_map.mp hl with ⟨sg, hsg, rfl⟩
        exact ⟨sg, hsg, hm⟩
      · rcases List.mem_flatten.mp h3 with ⟨l, hl, hm⟩
        rcases List.mem_map.mp hl with ⟨sg, hsg, rfl⟩
        exact ⟨sg, hsg, hm⟩
    · rintro ⟨h1, ⟨sg1, hsg1, hm1⟩, ⟨sg2, hsg2, hm2⟩, h4⟩
      exact ⟨h1, List.mem_flatten.mpr ⟨sg1.nodes, List.mem_map_of_mem _ hsg1, hm1⟩,
        List.mem_flatten.mpr ⟨sg2.nodes, List.mem_map_of_mem _ hsg2, hm2⟩, h4⟩
  · intro e he
    rcases cut_edge_mem he with ⟨_, h1, h2, _⟩
    exact ⟨(cut_edge_endpoint_assigned h1).2, (cut_edge_endpoint_assigned h2).2⟩
  · intro k sgk hk
    unfold placeholder_base
    rw [List.take_succ]
    rw [List.get?_eq_getElem?] at hk
    rw [hk]
    simp only [List.map_append, List.sum_append, List.map_cons, List.map_nil,
      List.sum_cons, List.sum_nil, Option.toList_some]
    ring
  · intro n hn
    simpa using go2 n hn
  · intro k sgk hk
    obtain ⟨sgk', hget, w2, w3, w4, w5⟩ := go3 k sgk hk
    have hsgk_mem : sgk ∈ split_graph_sub_graphs g assignments := List.get?_mem hk
    have hbase_eq : placeholder_base g
        (get_cut_edges g (split_graph_sub_graphs g assignments))
        (split_graph_sub_graphs g assignments) k
        = max_node_id g + 1
          + ((((split_graph_sub_graphs g assignments).take k).map
            (fun s => ((touching_cut_edges
              (get_cut_edges g (split_graph_sub_graphs g assignments)) s).length
                : Int))).sum) := rfl
    have hbase_ge : max_node_id g + 1 ≤ placeholder_base g
        (get_cut_edges g (split_graph_sub_graphs g assignments))
        (split_graph_sub_graphs g assignments) k := by
      rw [hbase_eq]
      have := base_sum_nonneg (get_cut_edges g (split_graph_sub_graphs g assignments))
        (split_graph_sub_graphs g assignments) k
      omega
    refine ⟨sgk', by simpa using hget, w2, by rw [hbase_eq]; simpa using w3, ?_⟩
    intro j e hj
    obtain ⟨q1, q2, q3, q4, q5, q6⟩ := w5 j e hj
    rw [hbase_eq]
    refine ⟨by simpa using q1, by simpa using q2, by simpa using q3,
      by simpa using q4, ?_, by simpa using q5, by simpa using q6⟩
    rw [w4]
    rw [List.filter_append]
    have hfirst : sgk.edges.filter (fun ed => decide
        (ed.1 = max_node_id g + 1
            + ((((split_graph_sub_graphs g assignments).take k).map
              (fun s => ((touching_cut_edges
                (get_cut_edges g (split_graph_sub_graphs g assignments)) s).length
                  : Int))).sum) + (j : Int)
        ∨ ed.2 = max_node_id g + 1
            + ((((split_graph_sub_graphs g assignments).take k).map
              (fun s => ((touching_cut_edges
                (get_cut_edges g (split_graph_sub_graphs g assignments)) s).length
                  : Int))).sum) + (j : Int))) = [] := by
      rw [List.filter_eq_nil_iff]
      intro ed hed
      have hb := sub_graph_edge_bounds hsgk_mem ed hed
      have hs := base_sum_nonneg (get_cut_edges g (split_graph_sub_graphs g assignments))
        (split_graph_sub_graphs g assignments) k
      have hj_nonneg : (0 : Int) ≤ (j : Int) := by positivity
      simp only [decide_eq_true_iff]
      push_neg
      constructor <;> omega
    rw [hfirst, List.nil_append]
    have hfil := placeholder_edges_filter sgk
      (touching_cut_edges (get_cut_edges g (split_graph_sub_graphs g assignments)) sgk)
      (max_node_id g + 1
        + ((((split_graph_sub_graphs g assignments).take k).map
          (fun s => ((touching_cut_edges
            (get_cut_edges g (split_graph_sub_graphs g assignments)) s).length
              : Int))).sum))
      j e hj (hone sgk hsgk_mem)
      (fun e' he' => hce_bnd e' (touching_sub he'))
      (by
        have := base_sum_nonneg (get_cut_edges g (split_graph_sub_graphs g assignments))
          (split_graph_sub_graphs g assignments) k
        omega)
    exact hfil

/-- Witness for C4 at Scenario A: no cut edge of the 2-partition example has
an excluded endpoint, and the shared placeholder counter starts at
`max(node ids) + 1`. -/
theorem claim_C4_witness :
    (∀ e ∈ get_cut_edges exampleGraphA
        (split_graph_sub_graphs exampleGraphA exampleAssignA),
      exampleAssignA e.1 ≠ -1 ∧ exampleAssignA e.2 ≠ -1)
    ∧ placeholder_base exampleGraphA
        (get_cut_edges exampleGraphA
          (split_graph_sub_graphs exampleGraphA exampleAssignA))
        (split_graph_sub_graphs exampleGraphA exampleAssignA) 0
      = max_node_id exampleGraphA + 1 :=
  ⟨(claim_C4_cut_edge_placeholders exampleGraphA exampleAssignA 10 (by decide)).2.1,
    (claim_C4_cut_edge_placeholders exampleGraphA exampleAssignA 10
      (by decide)).2.2.2.1⟩
